import Mathlib

/-!
Verification of the unity-rs type-tree deserializer and DXT texture decoder.

Bytes are modelled as `Nat` values (the source's `u8` guarantees `< 256`;
hypotheses state the bound where a result depends on it).  Machine-integer
truncation (`as u8`, `as u16`) is modelled with explicit `% 2 ^ w`.
Rust panics (`unwrap`, index/division panics) are modelled as `none` /
dedicated constructors, never as ordinary error returns.
-/

namespace UnityRs

/-! ## Texture decoder: shared primitives (src/texture_decoder) -/

/-- A decoded RGBA pixel, as the 4-byte array `[r, g, b, a]` of
`DXT1::decode_block` / `DXT5::decode_block`. -/
abbrev Pixel := List Nat

/-- Little-endian `u16` from two bytes (`byteorder::LittleEndian`). -/
def u16le (b0 b1 : Nat) : Nat := b0 + 256 * b1

/-- Little-endian `u32` from four bytes. -/
def u32le (b0 b1 b2 b3 : Nat) : Nat := b0 + 256 * b1 + 65536 * b2 + 16777216 * b3

/-- `rgb565_to_rgb888` (identical in dxt1.rs and dxt5.rs): split a 16-bit
color into 5/6/5 bit fields and bit-replicate each to 8 bits. -/
def rgb565_to_rgb888 (c : Nat) : Nat × Nat × Nat :=
  let r := (c >>> 11) &&& 0x1f
  let g := (c >>> 5) &&& 0x3f
  let b := c &&& 0x1f
  (((r <<< 3) ||| (r >>> 2)), ((g <<< 2) ||| (g >>> 4)), ((b <<< 3) ||| (b >>> 2)))

/-- The 4-entry DXT1 color table (`colors` in `DXT1::decode_block`).
Interpolation widens to `u16`, divides with truncation, and narrows with
`as u8` (modelled by `% 256`; the quotients are in fact below 256). -/
def dxt1_colors (c0 c1 : Nat) : List Pixel :=
  let p0 := rgb565_to_rgb888 c0
  let p1 := rgb565_to_rgb888 c1
  let r0 := p0.1; let g0 := p0.2.1; let b0 := p0.2.2
  let r1 := p1.1; let g1 := p1.2.1; let b1 := p1.2.2
  if c0 > c1 then
    [ [r0, g0, b0, 255], [r1, g1, b1, 255],
      [((2 * r0 + r1) / 3) % 256, ((2 * g0 + g1) / 3) % 256, ((2 * b0 + b1) / 3) % 256, 255],
      [((r0 + 2 * r1) / 3) % 256, ((g0 + 2 * g1) / 3) % 256, ((b0 + 2 * b1) / 3) % 256, 255] ]
  else
    [ [r0, g0, b0, 255], [r1, g1, b1, 255],
      [((r0 + r1) / 2) % 256, ((g0 + g1) / 2) % 256, ((b0 + b1) / 2) % 256, 255],
      [0, 0, 0, 0] ]

/-- `DXT1::decode_block`: read `c0`, `c1` (u16le) and `color_idx` (u32le)
from an 8-byte chunk, build the color table, select one of its 4 entries per
pixel.  `none` models the `std::io` error of a short read. -/
def dxt1_decode_block (data : List Nat) : Option (List Pixel) :=
  match data[0]?, data[1]?, data[2]?, data[3]?, data[4]?, data[5]?, data[6]?, data[7]? with
  | some b0, some b1, some b2, some b3, some b4, some b5, some b6, some b7 =>
    let c0 := u16le b0 b1
    let c1 := u16le b2 b3
    let color_idx := u32le b4 b5 b6 b7
    let colors := dxt1_colors c0 c1
    some ((List.range 16).map fun i => colors.getD ((color_idx >>> (2 * i)) &&& 0x3) [0, 0, 0, 0])
  | _, _, _, _, _, _, _, _ => none

/-- The 8-entry DXT5 alpha table, built exactly as the loop in
`DXT5::decode_block` builds `alphas`: start from `[0; 8]`, set entries 0 and 1,
then fill the interpolated entries (arithmetic in `u16`, narrowed `as u8`). -/
def dxt5_alphas (a0 a1 : Nat) : List Nat :=
  let base := (((List.replicate 8 0).set 0 a0).set 1 a1)
  if a0 > a1 then
    (List.range' 2 6).foldl
      (fun acc i => acc.set i ((((8 - i) * a0 % 65536 + (i - 1) * a1 % 65536) % 65536 / 7) % 256)) base
  else
    (((List.range' 2 4).foldl
      (fun acc i => acc.set i ((((6 - i) * a0 % 65536 + (i - 1) * a1 % 65536) % 65536 / 5) % 256)) base).set 6 0).set 7 255

/-- The 4-entry DXT5 color table (`colors` in `DXT5::decode_block`): always
the opaque interpolation, no `c0 ≤ c1` branch, and no alpha component. -/
def dxt5_colors (c0 c1 : Nat) : List (List Nat) :=
  let p0 := rgb565_to_rgb888 c0
  let p1 := rgb565_to_rgb888 c1
  let r0 := p0.1; let g0 := p0.2.1; let b0 := p0.2.2
  let r1 := p1.1; let g1 := p1.2.1; let b1 := p1.2.2
  [ [r0, g0, b0], [r1, g1, b1],
    [((2 * r0 + r1) / 3) % 256, ((2 * g0 + g1) / 3) % 256, ((2 * b0 + b1) / 3) % 256],
    [((r0 + 2 * r1) / 3) % 256, ((g0 + 2 * g1) / 3) % 256, ((b0 + 2 * b1) / 3) % 256] ]

/-- `DXT5::decode_block`: `a0`, `a1`, a 48-bit little-endian alpha index,
then `c0`, `c1`, `color_idx` as in DXT1; each pixel combines a color-table
entry with an alpha-table entry. -/
def dxt5_decode_block (data : List Nat) : Option (List Pixel) :=
  match data[0]?, data[1]?, data[8]?, data[9]?, data[10]?, data[11]?, data[12]?, data[13]?,
        data[14]?, data[15]?, data[2]?, data[3]?, data[4]?, data[5]?, data[6]?, data[7]? with
  | some a0, some a1, some b8, some b9, some b10, some b11, some b12, some b13,
    some b14, some b15, some i0, some i1, some i2, some i3, some i4, some i5 =>
    let alpha_idx := i0 + 256 * i1 + 65536 * i2 + 16777216 * i3
        + 4294967296 * i4 + 1099511627776 * i5
    let alphas := dxt5_alphas a0 a1
    let c0 := u16le b8 b9
    let c1 := u16le b10 b11
    let color_idx := u32le b12 b13 b14 b15
    let colors := dxt5_colors c0 c1
    some ((List.range 16).map fun i =>
      let rgb := colors.getD ((color_idx >>> (2 * i)) &&& 0x3) [0, 0, 0]
      let a := alphas.getD ((alpha_idx >>> (3 * i)) &&& 0x7) 0
      [rgb.getD 0 0, rgb.getD 1 0, rgb.getD 2 0, a])
  | _, _, _, _, _, _, _, _, _, _, _, _, _, _, _, _ => none

/-- `buffer[global_idx..global_idx + 4].copy_from_slice(&pixel)`:
write the 4 bytes of a pixel at flat position `(fy * w + x) * 4`. -/
def writePixel (w x fy : Nat) (px : Pixel) (buf : List Nat) : List Nat :=
  let gi := (fy * w + x) * 4
  ((((buf.set gi (px.getD 0 0)).set (gi + 1) (px.getD 1 0)).set
      (gi + 2) (px.getD 2 0)).set (gi + 3) (px.getD 3 0))

/-- One iteration of the per-block pixel loop, at flat step `k = row * 4 + col`:
skip the pixel when its global coordinate is at or beyond the image, otherwise
write it at the vertically flipped row `h - 1 - y`. -/
def writeStep (w h blockX blockY : Nat) (pxs : List Pixel) (k : Nat) (buf : List Nat) : List Nat :=
  let row := k / 4
  let col := k % 4
  let x := blockX + col
  let y := blockY + row
  if x ≥ w ∨ y ≥ h then buf
  else writePixel w x (h - 1 - y) (pxs.getD (row * 4 + col) [0, 0, 0, 0]) buf

/-- The first `k` iterations (in source order) of the `for row / for col`
double loop of `DXT1::decode` / `DXT5::decode`. -/
def writeBlockAux (w h blockX blockY : Nat) (pxs : List Pixel) : Nat → List Nat → List Nat
  | 0, buf => buf
  | k + 1, buf => writeStep w h blockX blockY pxs k (writeBlockAux w h blockX blockY pxs k buf)

/-- The full 4×4 double loop writing one decoded block into the buffer. -/
def writeBlock (w h blockX blockY : Nat) (pxs : List Pixel) (buf : List Nat) : List Nat :=
  writeBlockAux w h blockX blockY pxs 16 buf

/-- Outcome of the chunk loop shared by `DXT1::decode` and `DXT5::decode`. -/
inductive LoopOut where
  | panicked
  | blockFail
  | done (buf : List Nat)
deriving Repr, DecidableEq

/-- The `for (i, chunk) in data.chunks(block_size).enumerate()` loop common to
`DXT1::decode` and `DXT5::decode`: stop (`break`) at a chunk shorter than the
block size, fail if `decode_block` fails, and otherwise write the block at
origin `((i % blocks_x) * 4, (i / blocks_x) * 4)`.  `panicked` models the Rust
panics of `chunks(0)` and of `i % blocks_x` when `blocks_x = 0`.  The first
argument is recursion fuel; callers pass `data.length`, which dominates the
number of loop iterations, so the `0`-fuel case is reached only with an empty
`data` (`decodeBlocks_fuel` shows any sufficient fuel gives the same result). -/
def decodeBlocks (bs w h bx : Nat) (decB : List Nat → Option (List Pixel)) :
    Nat → Nat → List Nat → List Nat → LoopOut
  | 0, _, _, buf => .done buf
  | fuel + 1, n, data, buf =>
    if data.length = 0 then .done buf
    else if bs = 0 then .panicked
    else if data.length < bs then .done buf
    else
      match decB (data.take bs) with
      | none => .blockFail
      | some pxs =>
        if bx = 0 then .panicked
        else decodeBlocks bs w h bx decB fuel (n + 1) (data.drop bs)
              (writeBlock w h ((n % bx) * 4) ((n / bx) * 4) pxs buf)

/-- Error type of `texture_decoder::error::DecodeImageError`. -/
inductive DecodeImageError where
  | InvalidData
  | ImageDecode
deriving Repr, DecidableEq

/-- `DXT1::decode`: zero-filled `width * height * 4` buffer, the chunk loop
with 8-byte blocks (a `decode_block` failure becomes `InvalidData`), then
`RgbaImage::from_raw`, whose `None` becomes `ImageDecode`.  The outer `none`
models a panic inside the loop. -/
def dxt1_decode (data : List Nat) (w h : Nat) :
    Option (Except DecodeImageError (List Nat)) :=
  match decodeBlocks 8 w h ((w + 3) / 4) dxt1_decode_block data.length 0 data
      (List.replicate (w * h * 4) 0) with
  | .panicked => none
  | .blockFail => some (.error .InvalidData)
  | .done buf =>
    if buf.length = w * h * 4 then some (.ok buf) else some (.error .ImageDecode)

/-- `DXT5::decode`: same loop with 16-byte blocks; `decode_block` errors are
`io::Error`s propagated by `?` (here `.error ()`), and the final
`RgbaImage::from_raw(..).unwrap()` panic is the outer `none`. -/
def dxt5_decode (data : List Nat) (w h : Nat) :
    Option (Except Unit (List Nat)) :=
  match decodeBlocks 16 w h ((w + 3) / 4) dxt5_decode_block data.length 0 data
      (List.replicate (w * h * 4) 0) with
  | .panicked => none
  | .blockFail => some (.error ())
  | .done buf =>
    if buf.length = w * h * 4 then some (.ok buf) else none

/-- The pixel stored at output coordinate `(x, y)` of a row-major RGBA
buffer of width `w` (row 0 at the top, as in `RgbaImage`). -/
def pixelAt (buf : List Nat) (w x y : Nat) : Pixel :=
  [buf.getD ((y * w + x) * 4) 0, buf.getD ((y * w + x) * 4 + 1) 0,
   buf.getD ((y * w + x) * 4 + 2) 0, buf.getD ((y * w + x) * 4 + 3) 0]

/-! ## Texture decoder: basic lemmas -/

lemma dxt1_decode_block_isSome {data : List Nat} (h : 8 ≤ data.length) :
    ∃ pxs, dxt1_decode_block data = some pxs := by
  rw [dxt1_decode_block,
    List.getElem?_eq_getElem (by omega), List.getElem?_eq_getElem (by omega),
    List.getElem?_eq_getElem (by omega), List.getElem?_eq_getElem (by omega),
    List.getElem?_eq_getElem (by omega), List.getElem?_eq_getElem (by omega),
    List.getElem?_eq_getElem (by omega), List.getElem?_eq_getElem (by omega)]
  exact ⟨_, rfl⟩

lemma dxt5_decode_block_isSome {data : List Nat} (h : 16 ≤ data.length) :
    ∃ pxs, dxt5_decode_block data = some pxs := by
  rw [dxt5_decode_block,
    List.getElem?_eq_getElem (by omega), List.getElem?_eq_getElem (by omega),
    List.getElem?_eq_getElem (by omega), List.getElem?_eq_getElem (by omega),
    List.getElem?_eq_getElem (by omega), List.getElem?_eq_getElem (by omega),
    List.getElem?_eq_getElem (by omega), List.getElem?_eq_getElem (by omega),
    List.getElem?_eq_getElem (by omega), List.getElem?_eq_getElem (by omega),
    List.getElem?_eq_getElem (by omega), List.getElem?_eq_getElem (by omega),
    List.getElem?_eq_getElem (by omega), List.getElem?_eq_getElem (by omega),
    List.getElem?_eq_getElem (by omega), List.getElem?_eq_getElem (by omega)]
  exact ⟨_, rfl⟩

/-- The loop result does not depend on the fuel, as long as the fuel is at
least the length of the remaining data. -/
lemma decodeBlocks_fuel (bs w h bx : Nat) (decB : List Nat → Option (List Pixel)) :
    ∀ f1 f2 n data buf, data.length ≤ f1 → data.length ≤ f2 →
      decodeBlocks bs w h bx decB f1 n data buf
        = decodeBlocks bs w h bx decB f2 n data buf := by
  intro f1
  induction f1 with
  | zero =>
    intro f2 n data buf h1 h2
    have h0 : data.length = 0 := by omega
    cases f2 with
    | zero => rfl
    | succ g => simp [decodeBlocks, h0]
  | succ m ih =>
    intro f2 n data buf h1 h2
    by_cases h0 : data.length = 0
    · cases f2 with
      | zero => simp [decodeBlocks, h0]
      | succ g => simp [decodeBlocks, h0]
    · cases f2 with
      | zero => omega
      | succ g =>
        rw [decodeBlocks, decodeBlocks]
        rw [if_neg h0, if_neg h0]
        by_cases hbs : bs = 0
        · simp [hbs]
        rw [if_neg hbs, if_neg hbs]
        by_cases hsh : data.length < bs
        · simp [hsh]
        rw [if_neg hsh, if_neg hsh]
        cases hdec : decB (data.take bs) with
        | none => simp
        | some pxs =>
          simp only
          by_cases hbx : bx = 0
          · simp [hbx]
          rw [if_neg hbx, if_neg hbx]
          exact ih _ _ _ _ (by simp [List.length_drop]; omega)
            (by simp [List.length_drop]; omega)

/-- The chunk loop never reports a block failure when the block decoder
succeeds on every chunk of exactly the block size. -/
lemma decodeBlocks_ne_blockFail {bs : Nat} {decB : List Nat → Option (List Pixel)}
    (hdec : ∀ c : List Nat, c.length = bs → ∃ p, decB c = some p) (w h bx : Nat) :
    ∀ fuel n data buf, decodeBlocks bs w h bx decB fuel n data buf ≠ .blockFail := by
  intro fuel
  induction fuel with
  | zero => intro n data buf; simp [decodeBlocks]
  | succ m ih =>
    intro n data buf
    rw [decodeBlocks]
    by_cases h0 : data.length = 0
    · simp [h0]
    rw [if_neg h0]
    by_cases hbs : bs = 0
    · simp [hbs]
    rw [if_neg hbs]
    by_cases hsh : data.length < bs
    · simp [hsh]
    rw [if_neg hsh]
    obtain ⟨p, hp⟩ := hdec (data.take bs) (by simp [List.length_take]; omega)
    rw [hp]
    simp only
    by_cases hbx : bx = 0
    · simp [hbx]
    rw [if_neg hbx]
    exact ih _ _ _

/-- Truncating the input to a whole number of blocks does not change the
result of the chunk loop: the loop breaks at the short final chunk anyway. -/
lemma decodeBlocks_take {bs : Nat} (hbs : 0 < bs) (w h bx : Nat)
    (decB : List Nat → Option (List Pixel)) :
    ∀ fuel n data buf, data.length ≤ fuel →
      decodeBlocks bs w h bx decB fuel n (data.take (bs * (data.length / bs))) buf
        = decodeBlocks bs w h bx decB fuel n data buf := by
  intro fuel
  induction fuel with
  | zero => intro n data buf hlen; rfl
  | succ m ih =>
    intro n data buf hlen
    by_cases h0 : data.length = 0
    · have hq : data.length / bs = 0 := by rw [h0]; simp
      rw [hq, Nat.mul_zero, List.take_zero, decodeBlocks, decodeBlocks]
      simp [h0]
    by_cases hsh : data.length < bs
    · have hq : data.length / bs = 0 := Nat.div_eq_of_lt hsh
      rw [hq, Nat.mul_zero, List.take_zero, decodeBlocks, decodeBlocks]
      simp only [List.length_nil]
      rw [if_pos trivial, if_neg h0, if_neg (show ¬ bs = 0 by omega), if_pos hsh]
    -- the current chunk is full
    have hq1 : 1 ≤ data.length / bs := (Nat.one_le_div_iff hbs).mpr (by omega)
    have hbsq : bs ≤ bs * (data.length / bs) := by
      calc bs = bs * 1 := by ring
      _ ≤ bs * (data.length / bs) := Nat.mul_le_mul_left bs hq1
    have hqle : bs * (data.length / bs) ≤ data.length := by
      rw [Nat.mul_comm]
      exact Nat.div_mul_le_self data.length bs
    have hlt : (data.take (bs * (data.length / bs))).length = bs * (data.length / bs) := by
      simp only [List.length_take]
      omega
    rw [decodeBlocks, decodeBlocks]
    rw [if_neg (show ¬ (data.take (bs * (data.length / bs))).length = 0 by omega),
      if_neg (show ¬ bs = 0 by omega),
      if_neg (show ¬ (data.take (bs * (data.length / bs))).length < bs by omega),
      if_neg h0, if_neg (show ¬ bs = 0 by omega), if_neg hsh]
    have htk : (data.take (bs * (data.length / bs))).take bs = data.take bs := by
      rw [List.take_take]
      congr 1
      omega
    rw [htk]
    cases hdec : decB (data.take bs) with
    | none => simp
    | some pxs =>
      simp only
      by_cases hbx : bx = 0
      · simp [hbx]
      rw [if_neg hbx, if_neg hbx]
      have hdrop : (data.take (bs * (data.length / bs))).drop bs
          = (data.drop bs).take (bs * ((data.drop bs).length / bs)) := by
        rw [List.drop_take]
        congr 1
        have hlen2 : (data.drop bs).length = data.length - bs := by simp
        rw [hlen2]
        have hdiv : data.length / bs = (data.length - bs) / bs + 1 := by
          conv_lhs => rw [show data.length = (data.length - bs) + bs by omega]
          rw [Nat.add_div_right _ hbs]
        rw [hdiv]
        have : bs * ((data.length - bs) / bs + 1) = bs * ((data.length - bs) / bs) + bs := by
          ring
        omega
      rw [hdrop]
      exact ih _ _ _ (by simp [List.length_drop]; omega)

instance {ε α : Type} [DecidableEq ε] [DecidableEq α] : DecidableEq (Except ε α) := fun x y =>
  match x, y with
  | .ok a, .ok b =>
    if h : a = b then .isTrue (by rw [h]) else .isFalse (fun hh => h (Except.ok.inj hh))
  | .error e, .error f =>
    if h : e = f then .isTrue (by rw [h]) else .isFalse (fun hh => h (Except.error.inj hh))
  | .ok _, .error _ => .isFalse (fun hh => Except.noConfusion hh)
  | .error _, .ok _ => .isFalse (fun hh => Except.noConfusion hh)

/-! ## Claim C2: short final block -/

/-- C2 counterexample: a 1-byte input (not a multiple of the block size)
decodes to `Ok` (the all-zero image) for both DXT1 and DXT5 — not to the
`InvalidData` error the claim requires. -/
theorem c2_counterexample :
    dxt1_decode [0] 4 4 = some (.ok (List.replicate 64 0))
    ∧ dxt1_decode [0] 4 4 ≠ some (.error .InvalidData)
    ∧ dxt5_decode [0] 4 4 = some (.ok (List.replicate 64 0))
    ∧ dxt5_decode [0] 4 4 ≠ some (.error ()) := by
  refine ⟨by decide, by decide, by decide, by decide⟩

/-- C2 amended: a final block shorter than the block size is silently
ignored (the loop `break`s), so decoding equals decoding of the input
truncated to a whole number of blocks, and neither decoder ever returns the
`InvalidData` / `io::Error` failure of a short block. -/
theorem c2_short_block_ignored (data : List Nat) (w h : Nat) :
    dxt1_decode data w h = dxt1_decode (data.take (8 * (data.length / 8))) w h
    ∧ dxt1_decode data w h ≠ some (.error .InvalidData)
    ∧ dxt5_decode data w h = dxt5_decode (data.take (16 * (data.length / 16))) w h
    ∧ dxt5_decode data w h ≠ some (.error ()) := by
  have hb1 : decodeBlocks 8 w h ((w + 3) / 4) dxt1_decode_block
        (data.take (8 * (data.length / 8))).length 0
        (data.take (8 * (data.length / 8))) (List.replicate (w * h * 4) 0)
      = decodeBlocks 8 w h ((w + 3) / 4) dxt1_decode_block data.length 0 data
        (List.replicate (w * h * 4) 0) := by
    rw [decodeBlocks_fuel 8 w h ((w + 3) / 4) dxt1_decode_block
      (data.take (8 * (data.length / 8))).length data.length 0
      (data.take (8 * (data.length / 8))) (List.replicate (w * h * 4) 0)
      le_rfl (by simp only [List.length_take]; omega)]
    exact decodeBlocks_take (by norm_num) w h ((w + 3) / 4) dxt1_decode_block
      data.length 0 data (List.replicate (w * h * 4) 0) le_rfl
  have hb5 : decodeBlocks 16 w h ((w + 3) / 4) dxt5_decode_block
        (data.take (16 * (data.length / 16))).length 0
        (data.take (16 * (data.length / 16))) (List.replicate (w * h * 4) 0)
      = decodeBlocks 16 w h ((w + 3) / 4) dxt5_decode_block data.length 0 data
        (List.replicate (w * h * 4) 0) := by
    rw [decodeBlocks_fuel 16 w h ((w + 3) / 4) dxt5_decode_block
      (data.take (16 * (data.length / 16))).length data.length 0
      (data.take (16 * (data.length / 16))) (List.replicate (w * h * 4) 0)
      le_rfl (by simp only [List.length_take]; omega)]
    exact decodeBlocks_take (by norm_num) w h ((w + 3) / 4) dxt5_decode_block
      data.length 0 data (List.replicate (w * h * 4) 0) le_rfl
  refine ⟨?_, ?_, ?_, ?_⟩
  · rw [dxt1_decode, dxt1_decode, hb1]
  · intro hbad
    rw [dxt1_decode] at hbad
    rcases hres : decodeBlocks 8 w h ((w + 3) / 4) dxt1_decode_block data.length 0 data
        (List.replicate (w * h * 4) 0) with _ | _ | buf
    · rw [hres] at hbad; cases hbad
    · exact decodeBlocks_ne_blockFail
        (fun c hc => dxt1_decode_block_isSome (by omega))
        w h ((w + 3) / 4) data.length 0 data (List.replicate (w * h * 4) 0) hres
    · rw [hres] at hbad
      simp only at hbad
      split at hbad <;> cases hbad
  · rw [dxt5_decode, dxt5_decode, hb5]
  · intro hbad
    rw [dxt5_decode] at hbad
    rcases hres : decodeBlocks 16 w h ((w + 3) / 4) dxt5_decode_block data.length 0 data
        (List.replicate (w * h * 4) 0) with _ | _ | buf
    · rw [hres] at hbad; cases hbad
    · exact decodeBlocks_ne_blockFail
        (fun c hc => dxt5_decode_block_isSome (by omega))
        w h ((w + 3) / 4) data.length 0 data (List.replicate (w * h * 4) 0) hres
    · rw [hres] at hbad
      simp only at hbad
      split at hbad <;> cases hbad

/-! ## Claim C3: the all-index-3 DXT1 block -/

/-- C3 counterexample: the block `FF FF 00 00 FF FF FF FF` has every 2-bit
color index equal to 3, so every pixel is `colors[3] = (c0 + 2·c1)/3 =
(85, 85, 85, 255)` — not the `(255, 255, 255, 255)` the claim asserts. -/
theorem c3_counterexample :
    dxt1_decode [0xFF, 0xFF, 0x00, 0x00, 0xFF, 0xFF, 0xFF, 0xFF] 4 4
      = some (.ok ((List.replicate 16 ([85, 85, 85, 255] : List Nat)).flatten))
    ∧ pixelAt ((List.replicate 16 ([85, 85, 85, 255] : List Nat)).flatten) 4 0 0
      ≠ [255, 255, 255, 255] := by
  refine ⟨by decide, by decide⟩

/-- C3 amended: the all-index-3 block with `c0 = 0xFFFF`, `c1 = 0x0000`
yields all 16 pixels equal to `(85, 85, 85, 255)` (the `(c0 + 2·c1)/3`
interpolant, opaque); with `c0` and `c1` swapped, index 3 selects the
transparent `(0, 0, 0, 0)` entry, so all 16 pixels are zero. -/
theorem c3_all_index3_pixels :
    dxt1_decode [0xFF, 0xFF, 0x00, 0x00, 0xFF, 0xFF, 0xFF, 0xFF] 4 4
      = some (.ok ((List.replicate 16 ([85, 85, 85, 255] : List Nat)).flatten))
    ∧ dxt1_decode [0x00, 0x00, 0xFF, 0xFF, 0xFF, 0xFF, 0xFF, 0xFF] 4 4
      = some (.ok (List.replicate 64 0)) := by
  refine ⟨by decide, by decide⟩

/-! ## Claim C8: the DXT5 alpha table -/

lemma dxt5_alphas_of_gt (a0 a1 : Nat) (h : a0 > a1) :
    dxt5_alphas a0 a1 =
      [a0, a1,
       (6 * a0 % 65536 + 1 * a1 % 65536) % 65536 / 7 % 256,
       (5 * a0 % 65536 + 2 * a1 % 65536) % 65536 / 7 % 256,
       (4 * a0 % 65536 + 3 * a1 % 65536) % 65536 / 7 % 256,
       (3 * a0 % 65536 + 4 * a1 % 65536) % 65536 / 7 % 256,
       (2 * a0 % 65536 + 5 * a1 % 65536) % 65536 / 7 % 256,
       (1 * a0 % 65536 + 6 * a1 % 65536) % 65536 / 7 % 256] := by
  simp only [dxt5_alphas]
  rw [if_pos h]
  rfl

lemma dxt5_alphas_of_le (a0 a1 : Nat) (h : ¬ a0 > a1) :
    dxt5_alphas a0 a1 =
      [a0, a1,
       (4 * a0 % 65536 + 1 * a1 % 65536) % 65536 / 5 % 256,
       (3 * a0 % 65536 + 2 * a1 % 65536) % 65536 / 5 % 256,
       (2 * a0 % 65536 + 3 * a1 % 65536) % 65536 / 5 % 256,
       (1 * a0 % 65536 + 4 * a1 % 65536) % 65536 / 5 % 256,
       0, 255] := by
  simp only [dxt5_alphas]
  rw [if_neg h]
  rfl

/-- Removing the `u16` widening (`% 65536`) and `u8` narrowing (`% 256`)
from one interpolated alpha entry, for byte-sized inputs. -/
lemma interp_trunc (m n d a0 a1 : Nat) (h0 : a0 < 256) (h1 : a1 < 256)
    (hs : m * 255 + n * 255 < 65536) (hq : (m * 255 + n * 255) / d < 256) :
    (m * a0 % 65536 + n * a1 % 65536) % 65536 / d % 256 = (m * a0 + n * a1) / d := by
  have hma : m * a0 ≤ m * 255 := Nat.mul_le_mul_left _ (by omega)
  have hna : n * a1 ≤ n * 255 := Nat.mul_le_mul_left _ (by omega)
  rw [Nat.mod_eq_of_lt (show m * a0 < 65536 by omega),
    Nat.mod_eq_of_lt (show n * a1 < 65536 by omega),
    Nat.mod_eq_of_lt (show m * a0 + n * a1 < 65536 by omega)]
  exact Nat.mod_eq_of_lt (lt_of_le_of_lt (Nat.div_le_div_right (by omega)) hq)

/-- C8: the 8-entry DXT5 alpha table satisfies the claimed endpoint and
interpolation formulas (with integer truncation) in both the `a0 > a1`
and the `a0 ≤ a1` mode. -/
theorem c8_dxt5_alpha_table (a0 a1 : Nat) (h0 : a0 < 256) (h1 : a1 < 256) :
    (dxt5_alphas a0 a1).getD 0 0 = a0 ∧ (dxt5_alphas a0 a1).getD 1 0 = a1 ∧
    (a0 > a1 → ∀ k, 2 ≤ k → k < 8 →
      (dxt5_alphas a0 a1).getD k 0 = ((8 - k) * a0 + (k - 1) * a1) / 7) ∧
    (¬ a0 > a1 → (∀ k, 2 ≤ k → k < 6 →
      (dxt5_alphas a0 a1).getD k 0 = ((6 - k) * a0 + (k - 1) * a1) / 5) ∧
      (dxt5_alphas a0 a1).getD 6 0 = 0 ∧ (dxt5_alphas a0 a1).getD 7 0 = 255) := by
  by_cases hgt : a0 > a1
  · rw [dxt5_alphas_of_gt a0 a1 hgt]
    refine ⟨rfl, rfl, fun _ k h2 h8 => ?_, fun hn => absurd hgt hn⟩
    interval_cases k
    · show (6 * a0 % 65536 + 1 * a1 % 65536) % 65536 / 7 % 256 = _
      rw [interp_trunc 6 1 7 a0 a1 h0 h1 (by norm_num) (by norm_num)]
    · show (5 * a0 % 65536 + 2 * a1 % 65536) % 65536 / 7 % 256 = _
      rw [interp_trunc 5 2 7 a0 a1 h0 h1 (by norm_num) (by norm_num)]
    · show (4 * a0 % 65536 + 3 * a1 % 65536) % 65536 / 7 % 256 = _
      rw [interp_trunc 4 3 7 a0 a1 h0 h1 (by norm_num) (by norm_num)]
    · show (3 * a0 % 65536 + 4 * a1 % 65536) % 65536 / 7 % 256 = _
      rw [interp_trunc 3 4 7 a0 a1 h0 h1 (by norm_num) (by norm_num)]
    · show (2 * a0 % 65536 + 5 * a1 % 65536) % 65536 / 7 % 256 = _
      rw [interp_trunc 2 5 7 a0 a1 h0 h1 (by norm_num) (by norm_num)]
    · show (1 * a0 % 65536 + 6 * a1 % 65536) % 65536 / 7 % 256 = _
      rw [interp_trunc 1 6 7 a0 a1 h0 h1 (by norm_num) (by norm_num)]
  · rw [dxt5_alphas_of_le a0 a1 hgt]
    refine ⟨rfl, rfl, fun hgt2 => absurd hgt2 hgt,
      fun _ => ⟨fun k h2 h6 => ?_, rfl, rfl⟩⟩
    interval_cases k
    · show (4 * a0 % 65536 + 1 * a1 % 65536) % 65536 / 5 % 256 = _
      rw [interp_trunc 4 1 5 a0 a1 h0 h1 (by norm_num) (by norm_num)]
    · show (3 * a0 % 65536 + 2 * a1 % 65536) % 65536 / 5 % 256 = _
      rw [interp_trunc 3 2 5 a0 a1 h0 h1 (by norm_num) (by norm_num)]
    · show (2 * a0 % 65536 + 3 * a1 % 65536) % 65536 / 5 % 256 = _
      rw [interp_trunc 2 3 5 a0 a1 h0 h1 (by norm_num) (by norm_num)]
    · show (1 * a0 % 65536 + 4 * a1 % 65536) % 65536 / 5 % 256 = _
      rw [interp_trunc 1 4 5 a0 a1 h0 h1 (by norm_num) (by norm_num)]

/-- C8 witness: the table formulas evaluated at `(a0, a1) = (200, 100)`
(seven-step mode, entry 5) and `(10, 20)` (five-step mode, entry 6). -/
theorem c8_dxt5_alpha_table_witness :
    (dxt5_alphas 200 100).getD 5 0 = ((8 - 5) * 200 + (5 - 1) * 100) / 7
    ∧ (dxt5_alphas 10 20).getD 6 0 = 0 :=
  ⟨(c8_dxt5_alpha_table 200 100 (by decide) (by decide)).2.2.1 (by decide) 5
      (by decide) (by decide),
   ((c8_dxt5_alpha_table 10 20 (by decide) (by decide)).2.2.2 (by decide)).2.1⟩

/-! ## Texture decoder: buffer positioning (claims C7 and C10) -/

lemma getElem?_set_ne' {α : Type} (l : List α) (i j : Nat) (v : α) (hij : i ≠ j) :
    (l.set i v)[j]? = l[j]? := by
  rw [List.getElem?_set, if_neg hij]

lemma getElem?_set_self' {α : Type} (l : List α) (i : Nat) (v : α) (hi : i < l.length) :
    (l.set i v)[i]? = some v := by
  rw [List.getElem?_set, if_pos rfl, if_pos hi]

/-- A flat byte address `(fy * w + x) * 4 + c` determines the coordinate:
different in-range coordinates give different addresses. -/
lemma flat_ne (w : Nat) {fy1 x1 c1 fy2 x2 c2 : Nat} (h1 : x1 < w) (h2 : x2 < w)
    (hc1 : c1 < 4) (hc2 : c2 < 4) (hne : fy1 ≠ fy2 ∨ x1 ≠ x2) :
    (fy1 * w + x1) * 4 + c1 ≠ (fy2 * w + x2) * 4 + c2 := by
  intro h
  have hA : fy1 * w + x1 = fy2 * w + x2 := by omega
  have hw : 0 < w := by omega
  have hfy : fy1 = fy2 := by
    have e1 : (fy1 * w + x1) / w = fy1 := by
      rw [Nat.mul_comm fy1 w, Nat.mul_add_div hw, Nat.div_eq_of_lt h1]
      omega
    have e2 : (fy2 * w + x2) / w = fy2 := by
      rw [Nat.mul_comm fy2 w, Nat.mul_add_div hw, Nat.div_eq_of_lt h2]
      omega
    rw [← e1, ← e2, hA]
  rcases hne with hne | hne
  · exact hne hfy
  · subst hfy
    omega

/-- In-range flat addresses lie inside the `w * h * 4` buffer. -/
lemma flat_lt (w h x fy c : Nat) (hx : x < w) (hfy : fy < h) (hc : c < 4) :
    (fy * w + x) * 4 + c < w * h * 4 := by
  have h1 : fy * w + x + 1 ≤ h * w := by
    calc fy * w + x + 1 ≤ fy * w + w := by omega
    _ = (fy + 1) * w := by ring
    _ ≤ h * w := Nat.mul_le_mul_right w (by omega)
  calc (fy * w + x) * 4 + c < (fy * w + x + 1) * 4 := by omega
  _ ≤ (h * w) * 4 := Nat.mul_le_mul_right 4 h1
  _ = w * h * 4 := by ring

lemma length_writePixel (w x fy : Nat) (px buf : List Nat) :
    (writePixel w x fy px buf).length = buf.length := by
  simp [writePixel]

/-- Reading back the byte just written by `writePixel`. -/
lemma writePixel_getD_self (w x fy : Nat) (px buf : List Nat) (c : Nat) (hc : c < 4)
    (hin : (fy * w + x) * 4 + 3 < buf.length) :
    (writePixel w x fy px buf).getD ((fy * w + x) * 4 + c) 0 = px.getD c 0 := by
  simp only [writePixel, List.getD_eq_getElem?_getD]
  interval_cases c
  · rw [getElem?_set_ne' _ _ _ _ (by omega), getElem?_set_ne' _ _ _ _ (by omega),
      getElem?_set_ne' _ _ _ _ (by omega),
      show (fy * w + x) * 4 + 0 = (fy * w + x) * 4 by omega,
      getElem?_set_self' _ _ _ (by omega)]
    rfl
  · rw [getElem?_set_ne' _ _ _ _ (by omega), getElem?_set_ne' _ _ _ _ (by omega),
      getElem?_set_self' _ _ _ (by simp only [List.length_set]; omega)]
    rfl
  · rw [getElem?_set_ne' _ _ _ _ (by omega),
      getElem?_set_self' _ _ _ (by simp only [List.length_set]; omega)]
    rfl
  · rw [getElem?_set_self' _ _ _ (by simp only [List.length_set]; omega)]
    rfl

/-- `writePixel` does not change bytes outside its 4-byte window. -/
lemma writePixel_getD_ne (w x fy : Nat) (px buf : List Nat) (q : Nat)
    (hq : ∀ c, c < 4 → q ≠ (fy * w + x) * 4 + c) :
    (writePixel w x fy px buf).getD q 0 = buf.getD q 0 := by
  simp only [writePixel, List.getD_eq_getElem?_getD]
  rw [getElem?_set_ne' _ _ _ _ (by have := hq 3 (by omega); omega),
    getElem?_set_ne' _ _ _ _ (by have := hq 2 (by omega); omega),
    getElem?_set_ne' _ _ _ _ (by have := hq 1 (by omega); omega),
    getElem?_set_ne' _ _ _ _ (by have := hq 0 (by omega); omega)]

lemma length_writeStep (w h bX bY : Nat) (pxs : List Pixel) (k : Nat) (buf : List Nat) :
    (writeStep w h bX bY pxs k buf).length = buf.length := by
  rw [writeStep]
  split
  · rfl
  · exact length_writePixel ..

lemma length_writeBlockAux (w h bX bY : Nat) (pxs : List Pixel) :
    ∀ k buf, (writeBlockAux w h bX bY pxs k buf).length = buf.length := by
  intro k
  induction k with
  | zero => intro buf; rfl
  | succ m ih =>
    intro buf
    rw [writeBlockAux, length_writeStep, ih]

lemma length_writeBlock (w h bX bY : Nat) (pxs : List Pixel) (buf : List Nat) :
    (writeBlock w h bX bY pxs buf).length = buf.length :=
  length_writeBlockAux w h bX bY pxs 16 buf

/-- What the first `k` steps of the block-pixel loop leave at the flat
address of output coordinate `(x, h - 1 - y)`: the block pixel when `(x, y)`
lies in the block and its step already ran, the old byte otherwise. -/
lemma writeBlockAux_getD (w h bX bY : Nat) (pxs : List Pixel) (buf : List Nat)
    (hlen : buf.length = w * h * 4) (x y c : Nat)
    (hx : x < w) (hy : y < h) (hc : c < 4) :
    ∀ k, k ≤ 16 →
      (writeBlockAux w h bX bY pxs k buf).getD (((h - 1 - y) * w + x) * 4 + c) 0
        = if bX ≤ x ∧ x < bX + 4 ∧ bY ≤ y ∧ y < bY + 4 ∧ (y - bY) * 4 + (x - bX) < k
          then (pxs.getD ((y - bY) * 4 + (x - bX)) [0, 0, 0, 0]).getD c 0
          else buf.getD (((h - 1 - y) * w + x) * 4 + c) 0 := by
  intro k
  induction k with
  | zero =>
    intro _
    rw [if_neg (by omega)]
    rfl
  | succ m ih =>
    intro hm
    rw [writeBlockAux, writeStep]
    by_cases hhit : x = bX + m % 4 ∧ y = bY + m / 4
    · obtain ⟨hhx, hhy⟩ := hhit
      rw [if_neg (by omega)]
      have hidx : (y - bY) * 4 + (x - bX) = m := by omega
      rw [show bX + m % 4 = x by omega, show bY + m / 4 = y by omega]
      rw [writePixel_getD_self _ _ _ _ _ c hc
        (by rw [length_writeBlockAux, hlen]; exact flat_lt w h x (h - 1 - y) 3 hx (by omega) (by omega))]
      rw [if_pos (by omega)]
      rw [show m / 4 * 4 + m % 4 = m by omega, hidx]
    · have hmiss : ∀ hx4 : bX + m % 4 < w, ∀ hy4 : bY + m / 4 < h,
          (writePixel w (bX + m % 4) (h - 1 - (bY + m / 4))
              (pxs.getD (m / 4 * 4 + m % 4) [0, 0, 0, 0])
              (writeBlockAux w h bX bY pxs m buf)).getD
            (((h - 1 - y) * w + x) * 4 + c) 0
          = (writeBlockAux w h bX bY pxs m buf).getD (((h - 1 - y) * w + x) * 4 + c) 0 := by
        intro hx4 hy4
        apply writePixel_getD_ne
        intro c2 hc2
        apply flat_ne w hx hx4 hc hc2
        by_cases hxx : x = bX + m % 4
        · left
          have hyy : y ≠ bY + m / 4 := by tauto
          omega
        · right
          omega
      have hcond : ((y - bY) * 4 + (x - bX) < m + 1 ∧ bX ≤ x ∧ x < bX + 4 ∧ bY ≤ y ∧ y < bY + 4)
          ↔ ((y - bY) * 4 + (x - bX) < m ∧ bX ≤ x ∧ x < bX + 4 ∧ bY ≤ y ∧ y < bY + 4) := by
        constructor
        · rintro ⟨hlt, h1, h2, h3, h4⟩
          refine ⟨?_, h1, h2, h3, h4⟩
          have hne : (y - bY) * 4 + (x - bX) ≠ m := by
            intro he
            apply hhit
            constructor <;> omega
          omega
        · rintro ⟨hlt, h1, h2, h3, h4⟩
          exact ⟨by omega, h1, h2, h3, h4⟩
      split
      · rw [ih (by omega)]
        by_cases hin : bX ≤ x ∧ x < bX + 4 ∧ bY ≤ y ∧ y < bY + 4 ∧ (y - bY) * 4 + (x - bX) < m + 1
        · rw [if_pos hin, if_pos (by have := hcond.mp ⟨hin.2.2.2.2, hin.1, hin.2.1, hin.2.2.1, hin.2.2.2.1⟩; tauto)]
        · rw [if_neg hin, if_neg (by intro hk; exact hin ⟨hk.1, hk.2.1, hk.2.2.1, hk.2.2.2.1, by omega⟩)]
      · rename_i hnotskip
        have hx4 : bX + m % 4 < w := by omega
        have hy4 : bY + m / 4 < h := by omega
        rw [hmiss hx4 hy4, ih (by omega)]
        by_cases hin : bX ≤ x ∧ x < bX + 4 ∧ bY ≤ y ∧ y < bY + 4 ∧ (y - bY) * 4 + (x - bX) < m + 1
        · rw [if_pos hin, if_pos (by have := hcond.mp ⟨hin.2.2.2.2, hin.1, hin.2.1, hin.2.2.1, hin.2.2.2.1⟩; tauto)]
        · rw [if_neg hin, if_neg (by intro hk; exact hin ⟨hk.1, hk.2.1, hk.2.2.1, hk.2.2.2.1, by omega⟩)]

/-- The full block write, read back at output coordinate `(x, h - 1 - y)`. -/
lemma writeBlock_getD (w h bX bY : Nat) (pxs : List Pixel) (buf : List Nat)
    (hlen : buf.length = w * h * 4) (x y c : Nat)
    (hx : x < w) (hy : y < h) (hc : c < 4) :
    (writeBlock w h bX bY pxs buf).getD (((h - 1 - y) * w + x) * 4 + c) 0
      = if bX ≤ x ∧ x < bX + 4 ∧ bY ≤ y ∧ y < bY + 4
        then (pxs.getD ((y - bY) * 4 + (x - bX)) [0, 0, 0, 0]).getD c 0
        else buf.getD (((h - 1 - y) * w + x) * 4 + c) 0 := by
  rw [writeBlock, writeBlockAux_getD w h bX bY pxs buf hlen x y c hx hy hc 16 le_rfl]
  by_cases hin : bX ≤ x ∧ x < bX + 4 ∧ bY ≤ y ∧ y < bY + 4
  · rw [if_pos ⟨hin.1, hin.2.1, hin.2.2.1, hin.2.2.2, by omega⟩, if_pos hin]
  · rw [if_neg (by tauto), if_neg hin]

lemma block_idx_mod (bx a b : Nat) (hb : b < bx) : (a * bx + b) % bx = b := by
  rw [Nat.mul_comm a bx, Nat.mul_add_mod]
  exact Nat.mod_eq_of_lt hb

lemma block_idx_div (bx a b : Nat) (hbx : 0 < bx) (hb : b < bx) : (a * bx + b) / bx = a := by
  rw [Nat.mul_comm a bx, Nat.mul_add_div hbx, Nat.div_eq_of_lt hb]
  omega

/-- Full characterization of the chunk loop's output buffer: the byte at the
output address of coordinate `(x, h-1-y)` comes from the block covering
`(x, y)` if that block is a complete chunk of the remaining input, and is the
original buffer byte otherwise. -/
lemma decodeBlocks_done_getD {bs bx : Nat} (hbs : 0 < bs) (hbx : 0 < bx)
    (w h : Nat) (decB : List Nat → Option (List Pixel)) :
    ∀ fuel n data buf out,
      decodeBlocks bs w h bx decB fuel n data buf = .done out →
      data.length ≤ fuel → buf.length = w * h * 4 →
      out.length = w * h * 4 ∧
      ∀ x y c, x < w → y < h → c < 4 → x / 4 < bx →
        out.getD (((h - 1 - y) * w + x) * 4 + c) 0
          = if n ≤ y / 4 * bx + x / 4 ∧ (y / 4 * bx + x / 4 - n) * bs + bs ≤ data.length
            then (((decB ((data.drop ((y / 4 * bx + x / 4 - n) * bs)).take bs)).getD
                []).getD (y % 4 * 4 + x % 4) [0, 0, 0, 0]).getD c 0
            else buf.getD (((h - 1 - y) * w + x) * 4 + c) 0 := by
  intro fuel
  induction fuel with
  | zero =>
    intro n data buf out hdone hfuel hlenbuf
    rw [decodeBlocks] at hdone
    cases hdone
    refine ⟨hlenbuf, ?_⟩
    intro x y c hx hy hc hxbx
    rw [if_neg (by omega)]
  | succ m ih =>
    intro n data buf out hdone hfuel hlenbuf
    rw [decodeBlocks] at hdone
    by_cases h0 : data.length = 0
    · rw [if_pos h0] at hdone
      cases hdone
      refine ⟨hlenbuf, ?_⟩
      intro x y c hx hy hc hxbx
      rw [if_neg (by omega)]
    rw [if_neg h0, if_neg (show ¬ bs = 0 by omega)] at hdone
    by_cases hsh : data.length < bs
    · rw [if_pos hsh] at hdone
      cases hdone
      refine ⟨hlenbuf, ?_⟩
      intro x y c hx hy hc hxbx
      rw [if_neg (by omega)]
    rw [if_neg hsh] at hdone
    cases hdec : decB (data.take bs) with
    | none => rw [hdec] at hdone; cases hdone
    | some pxs =>
      rw [hdec] at hdone
      simp only at hdone
      rw [if_neg (show ¬ bx = 0 by omega)] at hdone
      have hlen' : (writeBlock w h (n % bx * 4) (n / bx * 4) pxs buf).length = w * h * 4 := by
        rw [length_writeBlock]; exact hlenbuf
      have hfuel' : (data.drop bs).length ≤ m := by
        simp only [List.length_drop]; omega
      obtain ⟨houtlen, hpix⟩ := ih (n + 1) (data.drop bs)
        (writeBlock w h (n % bx * 4) (n / bx * 4) pxs buf) out hdone hfuel' hlen'
      refine ⟨houtlen, ?_⟩
      intro x y c hx hy hc hxbx
      have hpx := hpix x y c hx hy hc hxbx
      rw [hpx]
      have hbimod : (y / 4 * bx + x / 4) % bx = x / 4 := block_idx_mod bx (y / 4) (x / 4) hxbx
      have hbidiv : (y / 4 * bx + x / 4) / bx = y / 4 := block_idx_div bx (y / 4) (x / 4) hbx hxbx
      have hnm : bx * (n / bx) + n % bx = n := Nat.div_add_mod n bx
      by_cases hge : n + 1 ≤ y / 4 * bx + x / 4
      · -- the covering block, if any, comes strictly later in the loop
        have hnotin : ¬(n % bx * 4 ≤ x ∧ x < n % bx * 4 + 4
            ∧ n / bx * 4 ≤ y ∧ y < n / bx * 4 + 4) := by
          rintro ⟨i1, i2, i3, i4⟩
          have ex : x / 4 = n % bx := by omega
          have ey : y / 4 = n / bx := by omega
          have : y / 4 * bx + x / 4 = n := by
            rw [ex, ey, Nat.mul_comm (n / bx) bx]
            exact hnm
          omega
        have hchunk : (data.drop bs).drop ((y / 4 * bx + x / 4 - (n + 1)) * bs)
            = data.drop ((y / 4 * bx + x / 4 - n) * bs) := by
          rw [List.drop_drop]
          congr 1
          have e : (y / 4 * bx + x / 4 - n) = (y / 4 * bx + x / 4 - (n + 1)) + 1 := by omega
          rw [e]
          ring
        have hLd : (data.drop bs).length = data.length - bs := by simp
        have e1 : (y / 4 * bx + x / 4 - n) * bs
            = (y / 4 * bx + x / 4 - (n + 1)) * bs + bs := by
          have e : (y / 4 * bx + x / 4 - n) = (y / 4 * bx + x / 4 - (n + 1)) + 1 := by omega
          rw [e]
          ring
        by_cases hfull : (y / 4 * bx + x / 4 - n) * bs + bs ≤ data.length
        · rw [if_pos ⟨hge, by omega⟩, if_pos ⟨by omega, hfull⟩, hchunk]
        · rw [if_neg (by intro hk; exact hfull (by omega)),
            if_neg (by intro hk; exact hfull hk.2)]
          rw [writeBlock_getD w h (n % bx * 4) (n / bx * 4) pxs buf hlenbuf x y c hx hy hc,
            if_neg hnotin]
      · -- the covering block index is at most n
        by_cases heq : y / 4 * bx + x / 4 = n
        · -- this very block covers (x, y)
          have ex : n % bx = x / 4 := by rw [← heq]; exact hbimod
          have ey : n / bx = y / 4 := by rw [← heq]; exact hbidiv
          have hin : n % bx * 4 ≤ x ∧ x < n % bx * 4 + 4
              ∧ n / bx * 4 ≤ y ∧ y < n / bx * 4 + 4 := by
            rw [ex, ey]
            omega
          rw [if_neg (by omega),
            writeBlock_getD w h (n % bx * 4) (n / bx * 4) pxs buf hlenbuf x y c hx hy hc,
            if_pos hin,
            if_pos ⟨by omega, by rw [heq]; simp only [Nat.sub_self, Nat.zero_mul]; omega⟩]
          rw [heq, Nat.sub_self, Nat.zero_mul, List.drop_zero, hdec]
          have ei : (y - n / bx * 4) * 4 + (x - n % bx * 4) = y % 4 * 4 + x % 4 := by
            rw [ex, ey]
            omega
          rw [ei]
          rfl
        · -- the covering block was already written (or never is)
          have hlt : y / 4 * bx + x / 4 < n := by omega
          have hnotin : ¬(n % bx * 4 ≤ x ∧ x < n % bx * 4 + 4
              ∧ n / bx * 4 ≤ y ∧ y < n / bx * 4 + 4) := by
            rintro ⟨i1, i2, i3, i4⟩
            have ex : x / 4 = n % bx := by omega
            have ey : y / 4 = n / bx := by omega
            have : y / 4 * bx + x / 4 = n := by
              rw [ex, ey, Nat.mul_comm (n / bx) bx]
              exact hnm
            omega
          rw [if_neg (by omega), if_neg (by intro hk; omega)]
          rw [writeBlock_getD w h (n % bx * 4) (n / bx * 4) pxs buf hlenbuf x y c hx hy hc,
            if_neg hnotin]

/-- A successful `DXT1::decode` means the chunk loop finished with the
returned buffer, which has the checked length. -/
lemma dxt1_decode_ok {data : List Nat} {w h : Nat} {out : List Nat}
    (hdec : dxt1_decode data w h = some (.ok out)) :
    decodeBlocks 8 w h ((w + 3) / 4) dxt1_decode_block data.length 0 data
      (List.replicate (w * h * 4) 0) = .done out ∧ out.length = w * h * 4 := by
  rw [dxt1_decode] at hdec
  rcases hres : decodeBlocks 8 w h ((w + 3) / 4) dxt1_decode_block data.length 0 data
      (List.replicate (w * h * 4) 0) with _ | _ | buf <;> rw [hres] at hdec
  · cases hdec
  · injection hdec with h2
    exact Except.noConfusion h2
  · simp only at hdec
    split at hdec
    · injection hdec with h2
      injection h2 with h3
      subst h3
      exact ⟨rfl, by assumption⟩
    · injection hdec with h2
      exact Except.noConfusion h2

/-- A successful `DXT5::decode` means the chunk loop finished with the
returned buffer, which has the checked length. -/
lemma dxt5_decode_ok {data : List Nat} {w h : Nat} {out : List Nat}
    (hdec : dxt5_decode data w h = some (.ok out)) :
    decodeBlocks 16 w h ((w + 3) / 4) dxt5_decode_block data.length 0 data
      (List.replicate (w * h * 4) 0) = .done out ∧ out.length = w * h * 4 := by
  rw [dxt5_decode] at hdec
  rcases hres : decodeBlocks 16 w h ((w + 3) / 4) dxt5_decode_block data.length 0 data
      (List.replicate (w * h * 4) 0) with _ | _ | buf <;> rw [hres] at hdec
  · cases hdec
  · injection hdec with h2
    exact Except.noConfusion h2
  · simp only at hdec
    split at hdec
    · injection hdec with h2
      injection h2 with h3
      subst h3
      exact ⟨rfl, by assumption⟩
    · cases hdec

lemma getD_replicate_zero (n q : Nat) : (List.replicate n (0 : Nat)).getD q 0 = 0 := by
  rw [List.getD_eq_getElem?_getD, List.getElem?_replicate]
  split <;> rfl

/-! ## Claim C7: block placement, vertical flip and discarding -/

/-- C7: for every full input block `i` and local position `(col, row)` whose
global coordinate `(block_x + col, block_y + row)` is inside the image
(`block_x = (i mod blocks_x)·4`, `block_y = (i div blocks_x)·4`), the decoded
output holds that block pixel at output coordinate
`(block_x + col, height - 1 - (block_y + row))`, for DXT1 and DXT5 alike.
Out-of-range block pixels are discarded: `decodeBlocks_done_getD` (and the
C10 theorem) show every output byte is either such an in-range block pixel or
an untouched zero. -/
theorem c7_block_placement :
    (∀ (data : List Nat) (w h i col row c : Nat) (out : List Nat) (pxs : List Pixel),
      dxt1_decode data w h = some (.ok out) →
      (i + 1) * 8 ≤ data.length →
      col < 4 → row < 4 → c < 4 →
      i % ((w + 3) / 4) * 4 + col < w →
      i / ((w + 3) / 4) * 4 + row < h →
      dxt1_decode_block ((data.drop (i * 8)).take 8) = some pxs →
      out.getD (((h - 1 - (i / ((w + 3) / 4) * 4 + row)) * w
          + (i % ((w + 3) / 4) * 4 + col)) * 4 + c) 0
        = (pxs.getD (row * 4 + col) [0, 0, 0, 0]).getD c 0)
    ∧ (∀ (data : List Nat) (w h i col row c : Nat) (out : List Nat) (pxs : List Pixel),
      dxt5_decode data w h = some (.ok out) →
      (i + 1) * 16 ≤ data.length →
      col < 4 → row < 4 → c < 4 →
      i % ((w + 3) / 4) * 4 + col < w →
      i / ((w + 3) / 4) * 4 + row < h →
      dxt5_decode_block ((data.drop (i * 16)).take 16) = some pxs →
      out.getD (((h - 1 - (i / ((w + 3) / 4) * 4 + row)) * w
          + (i % ((w + 3) / 4) * 4 + col)) * 4 + c) 0
        = (pxs.getD (row * 4 + col) [0, 0, 0, 0]).getD c 0) := by
  constructor
  · intro data w h i col row c out pxs hdec hfull hcol hrow hc hxlt hylt hpxs
    have hw : 0 < w := by omega
    have hbx : 0 < (w + 3) / 4 := by omega
    have hmaster := (decodeBlocks_done_getD (by norm_num) hbx w h dxt1_decode_block
      data.length 0 data (List.replicate (w * h * 4) 0) out (dxt1_decode_ok hdec).1
      le_rfl (by simp)).2
    have hx4 : (i % ((w + 3) / 4) * 4 + col) / 4 = i % ((w + 3) / 4) := by omega
    have hy4 : (i / ((w + 3) / 4) * 4 + row) / 4 = i / ((w + 3) / 4) := by omega
    have hmod : i % ((w + 3) / 4) < (w + 3) / 4 := Nat.mod_lt i hbx
    have hbi : (i / ((w + 3) / 4) * 4 + row) / 4 * ((w + 3) / 4)
        + (i % ((w + 3) / 4) * 4 + col) / 4 = i := by
      rw [hx4, hy4, Nat.mul_comm (i / ((w + 3) / 4)) ((w + 3) / 4)]
      exact Nat.div_add_mod i ((w + 3) / 4)
    have := hmaster (i % ((w + 3) / 4) * 4 + col) (i / ((w + 3) / 4) * 4 + row) c
      hxlt hylt hc (by rw [hx4]; exact hmod)
    rw [hbi] at this
    rw [this, if_pos ⟨by omega, by omega⟩, Nat.sub_zero, hpxs]
    have hym : (i / ((w + 3) / 4) * 4 + row) % 4 = row := by omega
    have hxm : (i % ((w + 3) / 4) * 4 + col) % 4 = col := by omega
    rw [hym, hxm]
    rfl
  · intro data w h i col row c out pxs hdec hfull hcol hrow hc hxlt hylt hpxs
    have hw : 0 < w := by omega
    have hbx : 0 < (w + 3) / 4 := by omega
    have hmaster := (decodeBlocks_done_getD (by norm_num) hbx w h dxt5_decode_block
      data.length 0 data (List.replicate (w * h * 4) 0) out (dxt5_decode_ok hdec).1
      le_rfl (by simp)).2
    have hx4 : (i % ((w + 3) / 4) * 4 + col) / 4 = i % ((w + 3) / 4) := by omega
    have hy4 : (i / ((w + 3) / 4) * 4 + row) / 4 = i / ((w + 3) / 4) := by omega
    have hmod : i % ((w + 3) / 4) < (w + 3) / 4 := Nat.mod_lt i hbx
    have hbi : (i / ((w + 3) / 4) * 4 + row) / 4 * ((w + 3) / 4)
        + (i % ((w + 3) / 4) * 4 + col) / 4 = i := by
      rw [hx4, hy4, Nat.mul_comm (i / ((w + 3) / 4)) ((w + 3) / 4)]
      exact Nat.div_add_mod i ((w + 3) / 4)
    have := hmaster (i % ((w + 3) / 4) * 4 + col) (i / ((w + 3) / 4) * 4 + row) c
      hxlt hylt hc (by rw [hx4]; exact hmod)
    rw [hbi] at this
    rw [this, if_pos ⟨by omega, by omega⟩, Nat.sub_zero, hpxs]
    have hym : (i / ((w + 3) / 4) * 4 + row) % 4 = row := by omega
    have hxm : (i % ((w + 3) / 4) * 4 + col) % 4 = col := by omega
    rw [hym, hxm]
    rfl

/-- C7 witness: a concrete full block placed at the expected flipped
coordinates, for each decoder. -/
theorem c7_block_placement_witness :
    ((List.replicate 16 ([85, 85, 85, 255] : List Nat)).flatten).getD
        (((4 - 1 - (0 / ((4 + 3) / 4) * 4 + 2)) * 4
          + (0 % ((4 + 3) / 4) * 4 + 1)) * 4 + 0) 0
      = ((List.replicate 16 ([85, 85, 85, 255] : List Nat)).getD (2 * 4 + 1)
          [0, 0, 0, 0]).getD 0 0
    ∧ (List.replicate 64 (255 : Nat)).getD
        (((4 - 1 - (0 / ((4 + 3) / 4) * 4 + 0)) * 4
          + (0 % ((4 + 3) / 4) * 4 + 0)) * 4 + 3) 0
      = ((List.replicate 16 ([255, 255, 255, 255] : List Nat)).getD (0 * 4 + 0)
          [0, 0, 0, 0]).getD 3 0 :=
  ⟨c7_block_placement.1 [0xFF, 0xFF, 0x00, 0x00, 0xFF, 0xFF, 0xFF, 0xFF] 4 4 0 1 2 0
      ((List.replicate 16 ([85, 85, 85, 255] : List Nat)).flatten)
      (List.replicate 16 [85, 85, 85, 255])
      (by decide) (by decide) (by decide) (by decide) (by decide) (by decide) (by decide)
      (by decide),
   c7_block_placement.2
      [0xFF, 0xFF, 0xFF, 0xFF, 0xFF, 0xFF, 0xFF, 0xFF,
       0xFF, 0xFF, 0x00, 0x00, 0x00, 0x00, 0x00, 0x00] 4 4 0 0 0 3
      (List.replicate 64 255) (List.replicate 16 [255, 255, 255, 255])
      (by decide) (by decide) (by decide) (by decide) (by decide) (by decide) (by decide)
      (by decide)⟩

/-! ## Claim C10: uncovered pixels are zero; output size -/

/-- C10: a successfully returned buffer is exactly `width · height · 4`
bytes, and every output pixel whose pre-flip coordinate `(x, y)` is not
covered by a complete block of the input is the zero pixel `(0, 0, 0, 0)` —
for DXT1 and DXT5 alike. -/
theorem c10_uncovered_pixels_zero :
    (∀ (data : List Nat) (w h : Nat) (out : List Nat),
      dxt1_decode data w h = some (.ok out) →
      out.length = w * h * 4
      ∧ ∀ x y, x < w → y < h →
        ¬((y / 4 * ((w + 3) / 4) + x / 4) * 8 + 8 ≤ data.length) →
        pixelAt out w x (h - 1 - y) = [0, 0, 0, 0])
    ∧ (∀ (data : List Nat) (w h : Nat) (out : List Nat),
      dxt5_decode data w h = some (.ok out) →
      out.length = w * h * 4
      ∧ ∀ x y, x < w → y < h →
        ¬((y / 4 * ((w + 3) / 4) + x / 4) * 16 + 16 ≤ data.length) →
        pixelAt out w x (h - 1 - y) = [0, 0, 0, 0]) := by
  constructor
  · intro data w h out hdec
    refine ⟨(dxt1_decode_ok hdec).2, ?_⟩
    intro x y hx hy hnc
    have hw : 0 < w := by omega
    have hbx : 0 < (w + 3) / 4 := by omega
    have hmaster := (decodeBlocks_done_getD (by norm_num) hbx w h dxt1_decode_block
      data.length 0 data (List.replicate (w * h * 4) 0) out (dxt1_decode_ok hdec).1
      le_rfl (by simp)).2
    have hx4 : x / 4 < (w + 3) / 4 := by omega
    have hone : ∀ c, c < 4 → out.getD (((h - 1 - y) * w + x) * 4 + c) 0 = 0 := by
      intro c hc
      rw [hmaster x y c hx hy hc hx4, if_neg (by intro hk; exact hnc (by omega)),
        getD_replicate_zero]
    simp only [pixelAt]
    rw [hone 1 (by omega), hone 2 (by omega), hone 3 (by omega),
      show ((h - 1 - y) * w + x) * 4 = ((h - 1 - y) * w + x) * 4 + 0 by omega,
      hone 0 (by omega)]
  · intro data w h out hdec
    refine ⟨(dxt5_decode_ok hdec).2, ?_⟩
    intro x y hx hy hnc
    have hw : 0 < w := by omega
    have hbx : 0 < (w + 3) / 4 := by omega
    have hmaster := (decodeBlocks_done_getD (by norm_num) hbx w h dxt5_decode_block
      data.length 0 data (List.replicate (w * h * 4) 0) out (dxt5_decode_ok hdec).1
      le_rfl (by simp)).2
    have hx4 : x / 4 < (w + 3) / 4 := by omega
    have hone : ∀ c, c < 4 → out.getD (((h - 1 - y) * w + x) * 4 + c) 0 = 0 := by
      intro c hc
      rw [hmaster x y c hx hy hc hx4, if_neg (by intro hk; exact hnc (by omega)),
        getD_replicate_zero]
    simp only [pixelAt]
    rw [hone 1 (by omega), hone 2 (by omega), hone 3 (by omega),
      show ((h - 1 - y) * w + x) * 4 = ((h - 1 - y) * w + x) * 4 + 0 by omega,
      hone 0 (by omega)]

/-- C10 witness: an empty input at 4×4 yields the all-zero 64-byte image;
the pixel at `(1, 2)` (uncovered by any block) is `(0, 0, 0, 0)`. -/
theorem c10_uncovered_pixels_zero_witness :
    ((List.replicate 64 (0 : Nat)).length = 4 * 4 * 4
      ∧ pixelAt (List.replicate 64 (0 : Nat)) 4 1 (4 - 1 - 2) = [0, 0, 0, 0])
    ∧ ((List.replicate 64 (0 : Nat)).length = 4 * 4 * 4
      ∧ pixelAt (List.replicate 64 (0 : Nat)) 4 1 (4 - 1 - 2) = [0, 0, 0, 0]) :=
  ⟨⟨((c10_uncovered_pixels_zero.1 [] 4 4 (List.replicate 64 0) (by decide)).1),
    (c10_uncovered_pixels_zero.1 [] 4 4 (List.replicate 64 0) (by decide)).2 1 2
      (by decide) (by decide) (by decide)⟩,
   ⟨((c10_uncovered_pixels_zero.2 [] 4 4 (List.replicate 64 0) (by decide)).1),
    (c10_uncovered_pixels_zero.2 [] 4 4 (List.replicate 64 0) (by decide)).2 1 2
      (by decide) (by decide) (by decide)⟩⟩

/-! ## Type-tree model (src/src/object.rs uses crate::typetree::TypeTreeNode) -/

/-- The fields of `TypeTreeNode` consumed by the deserializer: `level`,
`type_`, `name` and `meta_flag` (bit `0x4000` = align after payload). -/
structure TypeTreeNode where
  level : Nat
  type_ : String
  name : String
  metaFlag : Nat
deriving Repr, DecidableEq

/-- `ReadTypeTreeError` of object.rs, plus `outOfFuel`, an artifact of the
fuel-based embedding of the recursive walk (never produced by a run that the
source would finish). -/
inductive DErr where
  | bufEof
  | nodeEof
  | custom (msg : String)
  | outOfFuel
deriving Repr, DecidableEq

/-- Modelled from the spec: the byte reader of `crate::reader` (not under
src/) — a borrowed slice, an offset and a byte order (`little = true` for
little-endian). -/
structure Reader where
  data : List Nat
  pos : Nat
  little : Bool
deriving Repr, DecidableEq

/-- Modelled from the spec: combine bytes into an unsigned integer in the
configured order. -/
def bytesToNat (little : Bool) (bs : List Nat) : Nat :=
  (if little then bs.reverse else bs).foldl (fun acc b => acc * 256 + b) 0

/-- Modelled from the spec: read exactly `n` bytes at the cursor, failing
with `Eof` (`bufEof` here) if fewer remain. -/
def Reader.readBytes (r : Reader) (n : Nat) : Except DErr (List Nat × Reader) :=
  if r.pos + n ≤ r.data.length then
    .ok ((r.data.drop r.pos).take n, ⟨r.data, r.pos + n, r.little⟩)
  else .error .bufEof

/-- Modelled from the spec: `read_uN` for `N = 8 * nbytes` bits. -/
def Reader.readUInt (r : Reader) (nbytes : Nat) : Except DErr (Nat × Reader) :=
  match r.readBytes nbytes with
  | .error e => .error e
  | .ok (bs, r1) => .ok (bytesToNat r.little bs, r1)

/-- Two's-complement reinterpretation of a `w`-bit unsigned value. -/
def toSigned (w : Nat) (v : Nat) : Int :=
  if v < 2 ^ (w - 1) then (v : Int) else (v : Int) - 2 ^ w

/-- Modelled from the spec: `read_iN` for `N = 8 * nbytes` bits. -/
def Reader.readInt (r : Reader) (nbytes : Nat) : Except DErr (Int × Reader) :=
  match r.readUInt nbytes with
  | .error e => .error e
  | .ok (v, r1) => .ok (toSigned (8 * nbytes) v, r1)

/-- Modelled from the spec: `read_bool` reads one byte; any non-zero is
`true`. -/
def Reader.readBool (r : Reader) : Except DErr (Bool × Reader) :=
  match r.readBytes 1 with
  | .error e => .error e
  | .ok (bs, r1) => .ok (bs.getD 0 0 != 0, r1)

/-- Modelled from the spec: `align(k)` rounds the cursor up to the next
multiple of `k`, failing with `Eof` if that exceeds the slice length. -/
def Reader.align (r : Reader) (k : Nat) : Except DErr Reader :=
  let q := (r.pos + k - 1) / k * k
  if q ≤ r.data.length then .ok ⟨r.data, q, r.little⟩ else .error .bufEof

/-- Rust `as usize` on an `i32` read (sign-extension to 64 bits). -/
def i32ToUsize (v : Int) : Nat := (v % (2 ^ 64 : Int)).toNat

/-- Modelled from the spec: UTF-8 validity of a byte list (a malformed
string is surfaced as a decoding failure). -/
def validUtf8 : List Nat → Bool
  | [] => true
  | b :: rest =>
    if b ≤ 0x7f then validUtf8 rest
    else if 0xc2 ≤ b ∧ b ≤ 0xdf then
      match rest with
      | c1 :: r2 => (0x80 ≤ c1 && c1 ≤ 0xbf) && validUtf8 r2
      | _ => false
    else if b = 0xe0 then
      match rest with
      | c1 :: c2 :: r2 => (0xa0 ≤ c1 && c1 ≤ 0xbf) && (0x80 ≤ c2 && c2 ≤ 0xbf) && validUtf8 r2
      | _ => false
    else if (0xe1 ≤ b ∧ b ≤ 0xec) ∨ b = 0xee ∨ b = 0xef then
      match rest with
      | c1 :: c2 :: r2 =>
        (0x80 ≤ c1 && c1 ≤ 0xbf) && (0x80 ≤ c2 && c2 ≤ 0xbf) && validUtf8 r2
      | _ => false
    else if b = 0xed then
      match rest with
      | c1 :: c2 :: r2 => (0x80 ≤ c1 && c1 ≤ 0x9f) && (0x80 ≤ c2 && c2 ≤ 0xbf) && validUtf8 r2
      | _ => false
    else if b = 0xf0 then
      match rest with
      | c1 :: c2 :: c3 :: r2 =>
        (0x90 ≤ c1 && c1 ≤ 0xbf) && (0x80 ≤ c2 && c2 ≤ 0xbf)
          && (0x80 ≤ c3 && c3 ≤ 0xbf) && validUtf8 r2
      | _ => false
    else if 0xf1 ≤ b ∧ b ≤ 0xf3 then
      match rest with
      | c1 :: c2 :: c3 :: r2 =>
        (0x80 ≤ c1 && c1 ≤ 0xbf) && (0x80 ≤ c2 && c2 ≤ 0xbf)
          && (0x80 ≤ c3 && c3 ≤ 0xbf) && validUtf8 r2
      | _ => false
    else if b = 0xf4 then
      match rest with
      | c1 :: c2 :: c3 :: r2 =>
        (0x80 ≤ c1 && c1 ≤ 0x8f) && (0x80 ≤ c2 && c2 ≤ 0xbf)
          && (0x80 ≤ c3 && c3 ≤ 0xbf) && validUtf8 r2
      | _ => false
    else false

/-- Modelled from the spec: `read_aligned_string` — a 4-byte length, that
many UTF-8 bytes (kept as raw bytes here), then 4-byte alignment. -/
def Reader.readAlignedString (r : Reader) : Except DErr (List Nat × Reader) :=
  match r.readInt 4 with
  | .error e => .error e
  | .ok (len, r1) =>
    match r1.readBytes (i32ToUsize len) with
    | .error e => .error e
    | .ok (bs, r2) =>
      if validUtf8 bs then
        match r2.align 4 with
        | .error e => .error e
        | .ok r3 => .ok (bs, r3)
      else .error (.custom "invalid utf-8")

/-- `get_level_length` of object.rs: 0 when `idx` is out of range, otherwise
one plus the contiguous run of following nodes with strictly greater level. -/
def get_level_length (nodes : List TypeTreeNode) (idx : Nat) : Nat :=
  match nodes.drop idx with
  | [] => 0
  | first :: others =>
    (others.takeWhile (fun x => decide (first.level < x.level))).length + 1

/-- The value a universal receiver (one that accepts every event of the
deserializer) assembles: floats are kept as raw bits, strings as their
UTF-8 bytes, records as name/value field lists. -/
inductive Value where
  | vBool (b : Bool)
  | vInt (n : Int)
  | vNat (n : Nat)
  | vF32 (bits : Nat)
  | vF64 (bits : Nat)
  | vStr (bytes : List Nat)
  | vBytes (bytes : List Nat)
  | vSeq (xs : List Value)
  | vMap (xs : List (Value × Value))
  | vStruct (fs : List (String × Value))
deriving Repr

/-- The recognized scalar type names of `deserialize_any`'s match. -/
def isScalarType (s : String) : Bool :=
  s == "SInt8" || s == "UInt8" || s == "char" || s == "short" || s == "SInt16"
    || s == "UInt16" || s == "unsigned short" || s == "int" || s == "SInt32"
    || s == "UInt32" || s == "unsigned int" || s == "Type*" || s == "long long"
    || s == "SInt64" || s == "UInt64" || s == "unsigned long long" || s == "FileSize"
    || s == "float" || s == "double" || s == "bool"

/-- The scalar arms of `deserialize_any`'s match: read the payload and emit
the visit event; the node index is not advanced by these arms. -/
def scalarRead (t : String) (r : Reader) : Except DErr (Value × Reader) :=
  if t == "SInt8" then
    match r.readInt 1 with
    | .error e => .error e
    | .ok (v, r1) => .ok (.vInt v, r1)
  else if t == "UInt8" || t == "char" then
    match r.readUInt 1 with
    | .error e => .error e
    | .ok (v, r1) => .ok (.vNat v, r1)
  else if t == "short" || t == "SInt16" then
    match r.readInt 2 with
    | .error e => .error e
    | .ok (v, r1) => .ok (.vInt v, r1)
  else if t == "UInt16" || t == "unsigned short" then
    match r.readUInt 2 with
    | .error e => .error e
    | .ok (v, r1) => .ok (.vNat v, r1)
  else if t == "int" || t == "SInt32" then
    match r.readInt 4 with
    | .error e => .error e
    | .ok (v, r1) => .ok (.vInt v, r1)
  else if t == "UInt32" || t == "unsigned int" || t == "Type*" then
    match r.readUInt 4 with
    | .error e => .error e
    | .ok (v, r1) => .ok (.vNat v, r1)
  else if t == "long long" || t == "SInt64" then
    match r.readInt 8 with
    | .error e => .error e
    | .ok (v, r1) => .ok (.vInt v, r1)
  else if t == "UInt64" || t == "unsigned long long" || t == "FileSize" then
    match r.readUInt 8 with
    | .error e => .error e
    | .ok (v, r1) => .ok (.vNat v, r1)
  else if t == "float" then
    match r.readUInt 4 with
    | .error e => .error e
    | .ok (v, r1) => .ok (.vF32 v, r1)
  else if t == "double" then
    match r.readUInt 8 with
    | .error e => .error e
    | .ok (v, r1) => .ok (.vF64 v, r1)
  else if t == "bool" then
    match r.readBool with
    | .error e => .error e
    | .ok (v, r1) => .ok (.vBool v, r1)
  else .error (.custom "not a scalar")

/-- The trailing `if align { self.reader.align(4)?; } val` of
`deserialize_any`: a failing alignment replaces the result (even an error
result coming from a visitor) by `BufEof`. -/
def applyAlign (flag : Bool) (r : Reader) (res : Except DErr (Value × Nat)) :
    Reader × Except DErr (Value × Nat) :=
  if flag then
    match r.align 4 with
    | .ok r2 => (r2, res)
    | .error _ => (r, .error .bufEof)
  else (r, res)

mutual

/-- `<&mut Deserializer as serde::Deserializer>::deserialize_any`, driven by
a universal receiver, with explicit reader and node-index state.  Returns the
reader (mutated even on failure, as the borrowed Rust reader is) and either
an error or the assembled value plus the final node index.  The first
argument is structural recursion fuel; every run the source finishes is
reproduced by every sufficiently large fuel. -/
def deserialize_any : Nat → List TypeTreeNode → Nat → Reader →
    Reader × Except DErr (Value × Nat)
  | 0, _, _, r => (r, .error .outOfFuel)
  | fuel + 1, nodes, index, r =>
    match nodes[index]? with
    | none => (r, .error .nodeEof)
    | some node =>
      let align0 : Bool := node.metaFlag &&& 0x4000 != 0
      if isScalarType node.type_ then
        match scalarRead node.type_ r with
        | .error e => (r, .error e)
        | .ok (v, r1) => applyAlign align0 r1 (.ok (v, index))
      else if node.type_ == "string" then
        match r.readAlignedString with
        | .error e => (r, .error e)
        | .ok (bs, r1) => applyAlign align0 r1 (.ok (.vStr bs, index + 3))
      else if node.type_ == "TypelessData" then
        match r.readInt 4 with
        | .error e => (r, .error e)
        | .ok (sz, r1) =>
          match r1.readBytes (i32ToUsize sz) with
          | .error e => (r1, .error e)
          | .ok (bs, r2) => applyAlign align0 r2 (.ok (.vBytes bs, index + 2))
      else if node.type_ == "map" then
        let align1 := align0 || (match nodes[index + 1]? with
          | some n2 => n2.metaFlag &&& 0x4000 != 0
          | none => false)
        let span := get_level_length nodes index
        let first := index + 4
        let second := get_level_length nodes (index + 4) + first
        match r.readInt 4 with
        | .error e => (r, .error e)
        | .ok (sz, r1) =>
          match pairsLoop fuel nodes first second (i32ToUsize sz) r1 with
          | (r2, .error e) => applyAlign align1 r2 (.error e)
          | (r2, .ok ps) => applyAlign align1 r2 (.ok (.vMap ps, index + span - 1))
      else
        let arrayNode : Option TypeTreeNode :=
          match nodes[index + 1]? with
          | some n2 => if n2.type_ == "Array" then some n2 else none
          | none => none
        match arrayNode with
        | some n2 =>
          let align1 := align0 || (n2.metaFlag &&& 0x4000 != 0)
          let span := get_level_length nodes index
          match r.readInt 4 with
          | .error e => (r, .error e)
          | .ok (sz, r1) =>
            match elemsLoop fuel nodes (index + 3) (i32ToUsize sz) r1 with
            | (r2, .error e) => applyAlign align1 r2 (.error e)
            | (r2, .ok vs) => applyAlign align1 r2 (.ok (.vSeq vs, index + span - 1))
        | none =>
          let span := get_level_length nodes index
          match structLoop fuel nodes (index + span - 1) (index + 1) r [] with
          | (r2, .error e) => applyAlign align0 r2 (.error e)
          | (r2, .ok (fs, fi)) => applyAlign align0 r2 (.ok (.vStruct fs, fi))
termination_by structural fuel => fuel

/-- The drained `SeqAccess`: decode `count` elements, each at the fixed
template offset (the deserializer's index is restored between elements; the
caller then sets it to `end_offset`). -/
def elemsLoop : Nat → List TypeTreeNode → Nat → Nat → Reader →
    Reader × Except DErr (List Value)
  | 0, _, _, _, r => (r, .error .outOfFuel)
  | _ + 1, _, _, 0, r => (r, .ok [])
  | fuel + 1, nodes, offset, c + 1, r =>
    match deserialize_any fuel nodes offset r with
    | (r1, .error e) => (r1, .error e)
    | (r1, .ok (v, _)) =>
      match elemsLoop fuel nodes offset c r1 with
      | (r2, .error e) => (r2, .error e)
      | (r2, .ok vs) => (r2, .ok (v :: vs))
termination_by structural fuel => fuel

/-- The drained `MapAccess`: decode `count` key/value pairs, keys at the
`first` template, values at the `second` template, restoring the index each
time. -/
def pairsLoop : Nat → List TypeTreeNode → Nat → Nat → Nat → Reader →
    Reader × Except DErr (List (Value × Value))
  | 0, _, _, _, _, r => (r, .error .outOfFuel)
  | _ + 1, _, _, _, 0, r => (r, .ok [])
  | fuel + 1, nodes, first, second, c + 1, r =>
    match deserialize_any fuel nodes first r with
    | (r1, .error e) => (r1, .error e)
    | (r1, .ok (k, _)) =>
      match deserialize_any fuel nodes second r1 with
      | (r2, .error e) => (r2, .error e)
      | (r2, .ok (v, _)) =>
        match pairsLoop fuel nodes first second c r2 with
        | (r3, .error e) => (r3, .error e)
        | (r3, .ok ps) => (r3, .ok ((k, v) :: ps))
termination_by structural fuel => fuel

/-- The drained `StructAccess`: `next_key_seed` reads the node at the current
index unconditionally (NodeEof past the end), yields its name; the value is
decoded by recursive dispatch; `check_finish` stops at the subtree end
(`endIdx`) or the node-list end, otherwise the index advances by one. -/
def structLoop : Nat → List TypeTreeNode → Nat → Nat → Reader →
    List (String × Value) → Reader × Except DErr (List (String × Value) × Nat)
  | 0, _, _, _, r, _ => (r, .error .outOfFuel)
  | fuel + 1, nodes, endIdx, index, r, acc =>
    match nodes[index]? with
    | none => (r, .error .nodeEof)
    | some node =>
      match deserialize_any fuel nodes index r with
      | (r1, .error e) => (r1, .error e)
      | (r1, .ok (v, index1)) =>
        if nodes.length ≤ index1 ∨ endIdx ≤ index1 then
          (r1, .ok (acc ++ [(node.name, v)], index1))
        else
          structLoop fuel nodes endIdx (index1 + 1) r1 (acc ++ [(node.name, v)])
termination_by structural fuel => fuel

end


/-- `ObjectInfo::read_type_tree`: builds a `Deserializer` at node index 0
over the object's reader and runs `T::deserialize(&mut de).unwrap()`, then
wraps the result in `Ok`.  The `.unwrap()` turns every deserialization `Err`
into a panic — modelled as `none` — so no `ReadTypeTreeError` value ever
reaches the caller. -/
def read_type_tree (fuel : Nat) (nodes : List TypeTreeNode) (r : Reader) : Option Value :=
  match deserialize_any fuel nodes 0 r with
  | (_, .ok (v, _)) => some v
  | (_, .error _) => none

/-! ## Claim C9: the subtree length function -/

/-- The elements inside a `takeWhile` run satisfy the predicate; the first
element past the run (if any) falsifies it. -/
lemma takeWhile_getElem? {α : Type} (p : α → Bool) :
    ∀ l : List α,
      (∀ j, j < (l.takeWhile p).length → ∀ x, l[j]? = some x → p x = true)
      ∧ (∀ x, l[(l.takeWhile p).length]? = some x → p x = false)
      ∧ (l.takeWhile p).length ≤ l.length := by
  intro l
  induction l with
  | nil =>
    refine ⟨?_, ?_, ?_⟩ <;> simp
  | cons a t ih =>
    by_cases hp : p a = true
    · rw [List.takeWhile_cons, if_pos hp]
      refine ⟨?_, ?_, ?_⟩
      · intro j hj x hx
        cases j with
        | zero =>
          rw [List.getElem?_cons_zero] at hx
          injection hx with he
          rw [← he]
          exact hp
        | succ m =>
          rw [List.getElem?_cons_succ] at hx
          simp only [List.length_cons] at hj
          exact ih.1 m (by omega) x hx
      · intro x hx
        simp only [List.length_cons, List.getElem?_cons_succ] at hx
        exact ih.2.1 x hx
      · simp only [List.length_cons]
        have := ih.2.2
        omega
    · have hp' : p a = false := by
        revert hp
        cases p a <;> simp
      rw [List.takeWhile_cons, if_neg hp]
      refine ⟨?_, ?_, ?_⟩
      · intro j hj
        simp at hj
      · intro x hx
        simp only [List.length_nil, List.getElem?_cons_zero] at hx
        injection hx with he
        rw [← he]
        exact hp'
      · simp

/-- C9: `get_level_length nodes i` is 0 exactly when `i` is out of range;
in range it is `1 + k` where the `k` nodes after `i` all have level strictly
greater than `nodes[i].level`, the run stays inside the list, and the first
node after the run (when one exists) has level less than or equal — i.e. the
run is contiguous and stops at the first sibling or ancestor. -/
theorem c9_get_level_length (nodes : List TypeTreeNode) (i : Nat) :
    (get_level_length nodes i = 0 ↔ nodes.length ≤ i)
    ∧ ∀ nd, nodes[i]? = some nd →
      i + get_level_length nodes i ≤ nodes.length
      ∧ (∀ j x, i < j → j < i + get_level_length nodes i →
          nodes[j]? = some x → nd.level < x.level)
      ∧ (∀ x, nodes[i + get_level_length nodes i]? = some x → x.level ≤ nd.level) := by
  constructor
  · rw [get_level_length]
    rcases hdrop : nodes.drop i with _ | ⟨f, rest⟩
    · simp only
      constructor
      · intro _
        exact List.drop_eq_nil_iff.mp hdrop
      · intro _
        trivial
    · simp only
      constructor
      · intro h0
        omega
      · intro hlen
        have hnil : nodes.drop i = [] := List.drop_eq_nil_iff.mpr hlen
        rw [hdrop] at hnil
        cases hnil
  · intro nd hnd
    have hi : i < nodes.length := by
      by_contra hcon
      rw [List.getElem?_eq_none (by omega)] at hnd
      cases hnd
    have hgete : nodes[i] = nd := by
      have he := List.getElem?_eq_getElem hi
      rw [he] at hnd
      injection hnd
    have hdropeq : nodes.drop i = nd :: nodes.drop (i + 1) := by
      rw [List.drop_eq_getElem_cons hi, hgete]
    rw [get_level_length, hdropeq]
    simp only
    obtain ⟨h1, h2, h3⟩ :=
      takeWhile_getElem? (fun x => decide (nd.level < x.level)) (nodes.drop (i + 1))
    refine ⟨?_, ?_, ?_⟩
    · simp only [List.length_drop] at h3
      omega
    · intro j x hij hjlt hx
      have hx' : (nodes.drop (i + 1))[j - (i + 1)]? = some x := by
        rw [List.getElem?_drop, show i + 1 + (j - (i + 1)) = j by omega]
        exact hx
      have := h1 (j - (i + 1)) (by omega) x hx'
      exact of_decide_eq_true this
    · intro x hx
      have hx' : (nodes.drop (i + 1))[((nodes.drop (i + 1)).takeWhile
          (fun x => decide (nd.level < x.level))).length]? = some x := by
        rw [List.getElem?_drop, show i + 1 + ((nodes.drop (i + 1)).takeWhile
          (fun x => decide (nd.level < x.level))).length
            = i + (((nodes.drop (i + 1)).takeWhile
              (fun x => decide (nd.level < x.level))).length + 1) by omega]
        exact hx
      have := h2 x hx'
      have := of_decide_eq_false this
      omega

/-- C9 witness: a concrete node list (`root(0), x(1), y(2), z(1)`): the
subtree at index 1 has length 2, its inner node has greater level, and the
stopping node `z` has level ≤. -/
theorem c9_get_level_length_witness :
    (get_level_length
        [⟨0, "Base", "root", 0⟩, ⟨1, "int", "x", 0⟩, ⟨2, "int", "y", 0⟩,
         ⟨1, "int", "z", 0⟩] 1 = 0
      ↔ ([⟨0, "Base", "root", 0⟩, ⟨1, "int", "x", 0⟩, ⟨2, "int", "y", 0⟩,
         (⟨1, "int", "z", 0⟩ : TypeTreeNode)] : List TypeTreeNode).length ≤ 1)
    ∧ 1 + get_level_length
        [⟨0, "Base", "root", 0⟩, ⟨1, "int", "x", 0⟩, ⟨2, "int", "y", 0⟩,
         ⟨1, "int", "z", 0⟩] 1
      ≤ ([⟨0, "Base", "root", 0⟩, ⟨1, "int", "x", 0⟩, ⟨2, "int", "y", 0⟩,
         (⟨1, "int", "z", 0⟩ : TypeTreeNode)] : List TypeTreeNode).length
    ∧ (⟨1, "int", "x", 0⟩ : TypeTreeNode).level < (⟨2, "int", "y", 0⟩ : TypeTreeNode).level
    ∧ (⟨1, "int", "z", 0⟩ : TypeTreeNode).level ≤ (⟨1, "int", "x", 0⟩ : TypeTreeNode).level :=
  ⟨(c9_get_level_length
      [⟨0, "Base", "root", 0⟩, ⟨1, "int", "x", 0⟩, ⟨2, "int", "y", 0⟩, ⟨1, "int", "z", 0⟩] 1).1,
   ((c9_get_level_length
      [⟨0, "Base", "root", 0⟩, ⟨1, "int", "x", 0⟩, ⟨2, "int", "y", 0⟩, ⟨1, "int", "z", 0⟩] 1).2
      ⟨1, "int", "x", 0⟩ rfl).1,
   ((c9_get_level_length
      [⟨0, "Base", "root", 0⟩, ⟨1, "int", "x", 0⟩, ⟨2, "int", "y", 0⟩, ⟨1, "int", "z", 0⟩] 1).2
      ⟨1, "int", "x", 0⟩ rfl).2.1 2 ⟨2, "int", "y", 0⟩ (by decide) (by decide) rfl,
   ((c9_get_level_length
      [⟨0, "Base", "root", 0⟩, ⟨1, "int", "x", 0⟩, ⟨2, "int", "y", 0⟩, ⟨1, "int", "z", 0⟩] 1).2
      ⟨1, "int", "x", 0⟩ rfl).2.2 ⟨1, "int", "z", 0⟩ rfl⟩

/-! ## Claim C1: errors at the public entry point -/

/-- C1 (code bug): on an empty node list the deserializer reports `NodeEof`,
and on a primitive node with an empty byte buffer it reports `BufEof` — but
`read_type_tree` returns neither: its `.unwrap()` panics (modelled as
`none`), so the claimed `Err` never reaches the caller. -/
theorem c1_read_type_tree_swallows_errors :
    deserialize_any 10 [] 0 ⟨[], 0, true⟩ = (⟨[], 0, true⟩, .error .nodeEof)
    ∧ read_type_tree 10 [] ⟨[], 0, true⟩ = none
    ∧ deserialize_any 10 [⟨0, "int", "x", 0⟩] 0 ⟨[], 0, true⟩
      = (⟨[], 0, true⟩, .error .bufEof)
    ∧ read_type_tree 10 [⟨0, "int", "x", 0⟩] ⟨[], 0, true⟩ = none :=
  ⟨rfl, rfl, rfl, rfl⟩

/-! ## Claim C5: the empty record -/

/-- C5 counterexample: a record node whose subtree contains only itself and
that is the last node: decoding fails with `NodeEof` instead of succeeding
with a zero-entry map. -/
theorem c5_counterexample :
    deserialize_any 10 [⟨0, "MyRecord", "root", 0⟩] 0 ⟨[], 0, true⟩
      = (⟨[], 0, true⟩, .error .nodeEof) := rfl

/-- If `applyAlign` produced a success, the incoming result was that very
success. -/
lemma applyAlign_ok {flag : Bool} {r r' : Reader} {res : Except DErr (Value × Nat)}
    {v : Value} {i : Nat}
    (h : applyAlign flag r res = (r', .ok (v, i))) : res = .ok (v, i) := by
  have h2 := congrArg Prod.snd h
  by_cases hf : flag
  · rw [applyAlign, if_pos hf] at h2
    cases halign : r.align 4 with
    | ok r2 =>
      rw [halign] at h2
      exact h2
    | error e =>
      rw [halign] at h2
      exact Except.noConfusion h2
  · rw [applyAlign, if_neg hf] at h2
    exact h2

/-- C5 amended: the record branch enters `StructAccess` with the position
after the record as the first child index, without checking the subtree
bound first; when the record is the last node, the first `next_key_seed`
reads past the node list and the decode fails with `NodeEof` (stated here
for a record node without the alignment flag, so the reader is returned
unchanged). -/
theorem c5_last_empty_record_nodeEof
    (nodes : List TypeTreeNode) (i fuel : Nat) (r : Reader) (nd : TypeTreeNode)
    (hnd : nodes[i]? = some nd)
    (hlast : i + 1 = nodes.length)
    (hscal : isScalarType nd.type_ = false)
    (hstr : nd.type_ ≠ "string") (htl : nd.type_ ≠ "TypelessData")
    (hmap : nd.type_ ≠ "map")
    (hflag : nd.metaFlag &&& 0x4000 = 0) :
    deserialize_any (fuel + 2) nodes i r = (r, .error .nodeEof) := by
  have hstr' : (nd.type_ == "string") = false := beq_eq_false_iff_ne.mpr hstr
  have htl' : (nd.type_ == "TypelessData") = false := beq_eq_false_iff_ne.mpr htl
  have hmap' : (nd.type_ == "map") = false := beq_eq_false_iff_ne.mpr hmap
  have hnone : nodes[i + 1]? = none := List.getElem?_eq_none (by omega)
  rw [deserialize_any, hnd]
  simp only [hscal, hstr', htl', hmap', hnone, Bool.false_eq_true, if_false]
  rw [structLoop, hnone]
  simp only [applyAlign, hflag]
  rfl

/-- C5 witness: the amended statement at the concrete one-node list. -/
theorem c5_last_empty_record_nodeEof_witness :
    deserialize_any 2 [⟨0, "MyRecord", "root", 0⟩] 0 ⟨[], 0, true⟩
      = (⟨[], 0, true⟩, .error .nodeEof) :=
  c5_last_empty_record_nodeEof [⟨0, "MyRecord", "root", 0⟩] 0 0 ⟨[], 0, true⟩
    ⟨0, "MyRecord", "root", 0⟩ rfl rfl rfl (by decide) (by decide) (by decide) rfl

/-! ## Claim C4: subtree closure of record decoding -/

/-- C4 counterexample: a record whose only (and last) child is a string.
The string arm advances the index by 3 — one *past* its 3-node subtree — so
the record decode ends at index 4, not at
`i_entry + subtree_len(i_entry) - 1 = 3` as the claim asserts. -/
theorem c4_counterexample :
    deserialize_any 10
        [⟨0, "Base", "root", 0⟩, ⟨1, "string", "s", 0⟩, ⟨2, "Array", "Array", 0⟩,
         ⟨3, "char", "data", 0⟩] 0 ⟨[0, 0, 0, 0], 0, true⟩
      = (⟨[0, 0, 0, 0], 4, true⟩, .ok (.vStruct [("s", .vStr [])], 4))
    ∧ (4 : Nat) ≠ 0 + get_level_length
        [⟨0, "Base", "root", 0⟩, ⟨1, "string", "s", 0⟩, ⟨2, "Array", "Array", 0⟩,
         ⟨3, "char", "data", 0⟩] 0 - 1 :=
  ⟨rfl, by decide⟩

/-- The subtree counted by `get_level_length` stays inside the node list. -/
lemma get_level_length_bound {nodes : List TypeTreeNode} {i : Nat} (hi : i < nodes.length) :
    i + get_level_length nodes i ≤ nodes.length := by
  rw [get_level_length]
  rcases hdrop : nodes.drop i with _ | ⟨f, rest⟩
  · have := List.drop_eq_nil_iff.mp hdrop
    omega
  · simp only
    have h1 : (rest.takeWhile fun x => decide (f.level < x.level)).length ≤ rest.length :=
      (takeWhile_getElem? _ rest).2.2
    have h2 : (nodes.drop i).length = nodes.length - i := by simp
    rw [hdrop] at h2
    simp only [List.length_cons] at h2
    omega

/-- A successful dispatch at a scalar-typed node leaves the node index
unchanged (the scalar arms of `deserialize_any` do not advance it). -/
lemma deserialize_any_scalar_index {fuel : Nat} {nodes : List TypeTreeNode} {index : Nat}
    {r r' : Reader} {nd : TypeTreeNode} {v : Value} {i' : Nat}
    (hnd : nodes[index]? = some nd) (hscal : isScalarType nd.type_ = true)
    (hok : deserialize_any fuel nodes index r = (r', .ok (v, i'))) : i' = index := by
  cases fuel with
  | zero =>
    have h2 := congrArg Prod.snd hok
    exact Except.noConfusion h2
  | succ m =>
    rw [deserialize_any, hnd] at hok
    simp only [hscal, if_true] at hok
    cases hsr : scalarRead nd.type_ r with
    | error e =>
      rw [hsr] at hok
      have h2 := congrArg Prod.snd hok
      exact Except.noConfusion h2
    | ok p =>
      rw [hsr] at hok
      have := applyAlign_ok hok
      injection this with h1
      injection h1 with _ h2
      omega

/-- Over a run of scalar children, the struct loop (entered at or before the
subtree end) finishes exactly at the subtree end index. -/
lemma structLoop_scalar_end {nodes : List TypeTreeNode} {endIdx : Nat}
    (hend : endIdx < nodes.length) :
    ∀ fuel index r acc r' fs i',
      index ≤ endIdx →
      (∀ j x, index ≤ j → j ≤ endIdx → nodes[j]? = some x → isScalarType x.type_ = true) →
      structLoop fuel nodes endIdx index r acc = (r', .ok (fs, i')) →
      i' = endIdx := by
  intro fuel
  induction fuel with
  | zero =>
    intro index r acc r' fs i' hle hsc hok
    have h2 := congrArg Prod.snd hok
    exact Except.noConfusion h2
  | succ m ih =>
    intro index r acc r' fs i' hle hsc hok
    rw [structLoop] at hok
    have hidx : index < nodes.length := by omega
    have hnode := List.getElem?_eq_getElem hidx
    rw [hnode] at hok
    simp only at hok
    cases hda : deserialize_any m nodes index r with
    | mk r1 res =>
      rw [hda] at hok
      cases res with
      | error e =>
        simp only at hok
        have h2 := congrArg Prod.snd hok
        exact Except.noConfusion h2
      | ok p =>
        obtain ⟨v, index1⟩ := p
        have hi1 : index1 = index :=
          deserialize_any_scalar_index hnode (hsc index _ le_rfl hle hnode) hda
        simp only at hok
        split at hok
        · rename_i hfin
          have h2 := congrArg Prod.snd hok
          injection h2 with h3
          injection h3 with _ h4
          omega
        · rename_i hnofin
          exact ih (index1 + 1) r1 _ r' fs i' (by omega)
            (by intro j x hj1 hj2 hx; exact hsc j x (by omega) hj2 hx) hok

lemma get_level_length_pos {nodes : List TypeTreeNode} {i : Nat} (hi : i < nodes.length) :
    1 ≤ get_level_length nodes i := by
  rw [get_level_length]
  rcases hdrop : nodes.drop i with _ | ⟨f, rest⟩
  · have := List.drop_eq_nil_iff.mp hdrop
    omega
  · simp only
    omega

/-- C4 amended: the closure invariant holds for records whose children are
all scalar nodes (every child decode then ends at its own node): a
successful decode of such a record entered at `i` ends with the node index
at `i + subtree_len(i) - 1`.  (By `c4_counterexample`, it fails when the
last child is a string or `TypelessData` node, which end one index past
their subtree.) -/
theorem c4_scalar_record_closure
    (nodes : List TypeTreeNode) (i fuel : Nat) (r r' : Reader) (v : Value) (i' : Nat)
    (nd : TypeTreeNode)
    (hnd : nodes[i]? = some nd)
    (hscal : isScalarType nd.type_ = false)
    (hstr : nd.type_ ≠ "string") (htl : nd.type_ ≠ "TypelessData")
    (hmap : nd.type_ ≠ "map")
    (hnoarr : ∀ n2, nodes[i + 1]? = some n2 → n2.type_ ≠ "Array")
    (hspan : 2 ≤ get_level_length nodes i)
    (hchildren : ∀ j x, i < j → j < i + get_level_length nodes i →
      nodes[j]? = some x → isScalarType x.type_ = true)
    (hok : deserialize_any fuel nodes i r = (r', .ok (v, i'))) :
    i' = i + get_level_length nodes i - 1 := by
  cases fuel with
  | zero => exact Except.noConfusion (congrArg Prod.snd hok)
  | succ m =>
    have hstr' : (nd.type_ == "string") = false := beq_eq_false_iff_ne.mpr hstr
    have htl' : (nd.type_ == "TypelessData") = false := beq_eq_false_iff_ne.mpr htl
    have hmap' : (nd.type_ == "map") = false := beq_eq_false_iff_ne.mpr hmap
    rw [deserialize_any, hnd] at hok
    simp only [hscal, hstr', htl', hmap', Bool.false_eq_true, if_false] at hok
    have harr : (match nodes[i + 1]? with
        | some n2 => if n2.type_ == "Array" then some n2 else none
        | none => none) = (none : Option TypeTreeNode) := by
      cases hn2 : nodes[i + 1]? with
      | none => rfl
      | some n2 =>
        simp only
        rw [if_neg (by simp [beq_eq_false_iff_ne.mpr (hnoarr n2 hn2)])]
    simp only [harr] at hok
    rcases hsl : structLoop m nodes (i + get_level_length nodes i - 1) (i + 1) r []
      with ⟨r2, res⟩
    rw [hsl] at hok
    cases res with
    | error e =>
      simp only at hok
      exact Except.noConfusion (applyAlign_ok hok)
    | ok p =>
      obtain ⟨fs, fi⟩ := p
      simp only at hok
      have hres := applyAlign_ok hok
      injection hres with h1
      injection h1 with _ h2
      have hi : i < nodes.length := by
        by_contra hcon
        rw [List.getElem?_eq_none (by omega)] at hnd
        cases hnd
      have hbound := get_level_length_bound hi
      have hfi := structLoop_scalar_end
        (show i + get_level_length nodes i - 1 < nodes.length by omega)
        m (i + 1) r [] r2 fs fi (by omega)
        (fun j x hj1 hj2 hx => hchildren j x (by omega) (by omega) hx) hsl
      omega

/-- C4 witness: a flat record `root(Base) / x:int, y:int` decoded from 8
little-endian bytes ends at node index `2 = 0 + subtree_len(0) - 1`. -/
theorem c4_scalar_record_closure_witness :
    (2 : Nat) = 0 + get_level_length
      [⟨0, "Base", "root", 0⟩, ⟨1, "int", "x", 0⟩, ⟨1, "int", "y", 0⟩] 0 - 1 :=
  c4_scalar_record_closure
    [⟨0, "Base", "root", 0⟩, ⟨1, "int", "x", 0⟩, ⟨1, "int", "y", 0⟩] 0 10
    ⟨[1, 0, 0, 0, 2, 0, 0, 0], 0, true⟩ ⟨[1, 0, 0, 0, 2, 0, 0, 0], 8, true⟩
    (.vStruct [("x", .vInt 1), ("y", .vInt 2)]) 2
    ⟨0, "Base", "root", 0⟩ rfl rfl (by decide) (by decide) (by decide)
    (by intro n2 hn2 hcontra
        injection hn2 with h
        rw [← h] at hcontra
        exact absurd hcontra (by decide))
    (by decide)
    (by intro j x hj1 hj2 hx
        rw [show get_level_length
          [⟨0, "Base", "root", 0⟩, ⟨1, "int", "x", 0⟩, ⟨1, "int", "y", 0⟩] 0 = 3
          from rfl] at hj2
        interval_cases j
        · injection hx with h
          rw [← h]
          decide
        · injection hx with h
          rw [← h]
          decide)
    rfl

/-! ## Claim C6: container arity -/

/-- The drained sequence loop produces exactly `count` elements. -/
lemma elemsLoop_length :
    ∀ fuel (nodes : List TypeTreeNode) (offset count : Nat) (r r' : Reader) (vs : List Value),
      elemsLoop fuel nodes offset count r = (r', .ok vs) → vs.length = count := by
  intro fuel
  induction fuel with
  | zero =>
    intro nodes offset count r r' vs hok
    exact Except.noConfusion (congrArg Prod.snd hok)
  | succ m ih =>
    intro nodes offset count r r' vs hok
    cases count with
    | zero =>
      rw [elemsLoop] at hok
      have h2 := congrArg Prod.snd hok
      injection h2 with h3
      rw [← h3]
      rfl
    | succ c =>
      rw [elemsLoop] at hok
      cases hda : deserialize_any m nodes offset r with
      | mk r1 res1 =>
        rw [hda] at hok
        cases res1 with
        | error e => exact Except.noConfusion (congrArg Prod.snd hok)
        | ok p =>
          obtain ⟨v, vi⟩ := p
          simp only at hok
          cases hel : elemsLoop m nodes offset c r1 with
          | mk r2 res2 =>
            rw [hel] at hok
            cases res2 with
            | error e => exact Except.noConfusion (congrArg Prod.snd hok)
            | ok vs0 =>
              simp only at hok
              have h2 := congrArg Prod.snd hok
              injection h2 with h3
              rw [← h3, List.length_cons, ih nodes offset c r1 r2 vs0 hel]

/-- The drained map loop produces exactly `count` key/value pairs (the key
template and the value template are each used once per pair). -/
lemma pairsLoop_length :
    ∀ fuel (nodes : List TypeTreeNode) (first second count : Nat) (r r' : Reader)
      (ps : List (Value × Value)),
      pairsLoop fuel nodes first second count r = (r', .ok ps) → ps.length = count := by
  intro fuel
  induction fuel with
  | zero =>
    intro nodes first second count r r' ps hok
    exact Except.noConfusion (congrArg Prod.snd hok)
  | succ m ih =>
    intro nodes first second count r r' ps hok
    cases count with
    | zero =>
      rw [pairsLoop] at hok
      have h2 := congrArg Prod.snd hok
      injection h2 with h3
      rw [← h3]
      rfl
    | succ c =>
      rw [pairsLoop] at hok
      cases hk : deserialize_any m nodes first r with
      | mk r1 res1 =>
        rw [hk] at hok
        cases res1 with
        | error e => exact Except.noConfusion (congrArg Prod.snd hok)
        | ok pk =>
          obtain ⟨k, ki⟩ := pk
          simp only at hok
          cases hv : deserialize_any m nodes second r1 with
          | mk r2 res2 =>
            rw [hv] at hok
            cases res2 with
            | error e => exact Except.noConfusion (congrArg Prod.snd hok)
            | ok pv =>
              obtain ⟨v, vi⟩ := pv
              simp only at hok
              cases hpl : pairsLoop m nodes first second c r2 with
              | mk r3 res3 =>
                rw [hpl] at hok
                cases res3 with
                | error e => exact Except.noConfusion (congrArg Prod.snd hok)
                | ok ps0 =>
                  simp only at hok
                  have h2 := congrArg Prod.snd hok
                  injection h2 with h3
                  rw [← h3, List.length_cons,
                    ih nodes first second c r2 r3 ps0 hpl]

/-- C6: a successful decode of an `Array`-child record emits `visit_seq`
with exactly `N` elements, each produced by one run of the element template
at `i + 3` (the drained `SeqAccess` loop), where `N` is the `i32` count read
from the stream; and a successful decode of a `map` node emits `visit_map`
with exactly `N` key/value pairs, the key template at `i + 4` and the value
template at `i + 4 + subtree_len(i + 4)` each being used once per pair. -/
theorem c6_container_arity :
    (∀ (fuel : Nat) (nodes : List TypeTreeNode) (index : Nat) (r r' : Reader)
      (v : Value) (i' : Nat) (nd n2 : TypeTreeNode),
      nodes[index]? = some nd →
      isScalarType nd.type_ = false →
      nd.type_ ≠ "string" → nd.type_ ≠ "TypelessData" → nd.type_ ≠ "map" →
      nodes[index + 1]? = some n2 → n2.type_ = "Array" →
      deserialize_any fuel nodes index r = (r', .ok (v, i')) →
      ∃ fuel0 sz r1 vs r2,
        fuel = fuel0 + 1
        ∧ Reader.readInt r 4 = .ok (sz, r1)
        ∧ elemsLoop fuel0 nodes (index + 3) (i32ToUsize sz) r1 = (r2, .ok vs)
        ∧ v = .vSeq vs
        ∧ vs.length = i32ToUsize sz
        ∧ i' = index + get_level_length nodes index - 1)
    ∧ (∀ (fuel : Nat) (nodes : List TypeTreeNode) (index : Nat) (r r' : Reader)
      (v : Value) (i' : Nat) (nd : TypeTreeNode),
      nodes[index]? = some nd →
      nd.type_ = "map" →
      deserialize_any fuel nodes index r = (r', .ok (v, i')) →
      ∃ fuel0 sz r1 ps r2,
        fuel = fuel0 + 1
        ∧ Reader.readInt r 4 = .ok (sz, r1)
        ∧ pairsLoop fuel0 nodes (index + 4)
            (get_level_length nodes (index + 4) + (index + 4)) (i32ToUsize sz) r1
          = (r2, .ok ps)
        ∧ v = .vMap ps
        ∧ ps.length = i32ToUsize sz
        ∧ i' = index + get_level_length nodes index - 1) := by
  constructor
  · intro fuel nodes index r r' v i' nd n2 hnd hscal hstr htl hmap hn2 harr hok
    cases fuel with
    | zero => exact Except.noConfusion (congrArg Prod.snd hok)
    | succ m =>
      have hstr' : (nd.type_ == "string") = false := beq_eq_false_iff_ne.mpr hstr
      have htl' : (nd.type_ == "TypelessData") = false := beq_eq_false_iff_ne.mpr htl
      have hmap' : (nd.type_ == "map") = false := beq_eq_false_iff_ne.mpr hmap
      have harr' : (n2.type_ == "Array") = true := by
        rw [harr]
        rfl
      rw [deserialize_any, hnd] at hok
      simp only [hscal, hstr', htl', hmap', Bool.false_eq_true, if_false, hn2, harr',
        eq_self_iff_true, if_true] at hok
      cases hri : r.readInt 4 with
      | error e =>
        rw [hri] at hok
        exact Except.noConfusion (congrArg Prod.snd hok)
      | ok p =>
        obtain ⟨sz, r1⟩ := p
        rw [hri] at hok
        simp only at hok
        rcases hel : elemsLoop m nodes (index + 3) (i32ToUsize sz) r1 with ⟨r2, res⟩
        rw [hel] at hok
        cases res with
        | error e => exact Except.noConfusion (applyAlign_ok hok)
        | ok vs =>
          simp only at hok
          have hres := applyAlign_ok hok
          injection hres with h1
          injection h1 with hv hi'
          exact ⟨m, sz, r1, vs, r2, rfl, rfl, hel, hv.symm,
            elemsLoop_length m nodes (index + 3) (i32ToUsize sz) r1 r2 vs hel, hi'.symm⟩
  · intro fuel nodes index r r' v i' nd hnd hmapeq hok
    cases fuel with
    | zero => exact Except.noConfusion (congrArg Prod.snd hok)
    | succ m =>
      have hscal : isScalarType nd.type_ = false := by
        rw [hmapeq]
        rfl
      have hstr' : (nd.type_ == "string") = false := by
        rw [hmapeq]
        rfl
      have htl' : (nd.type_ == "TypelessData") = false := by
        rw [hmapeq]
        rfl
      have hmap' : (nd.type_ == "map") = true := by
        rw [hmapeq]
        rfl
      rw [deserialize_any, hnd] at hok
      simp only [hscal, hstr', htl', hmap', Bool.false_eq_true, if_false,
        eq_self_iff_true, if_true] at hok
      cases hri : r.readInt 4 with
      | error e =>
        rw [hri] at hok
        exact Except.noConfusion (congrArg Prod.snd hok)
      | ok p =>
        obtain ⟨sz, r1⟩ := p
        rw [hri] at hok
        simp only at hok
        rcases hpl : pairsLoop m nodes (index + 4)
            (get_level_length nodes (index + 4) + (index + 4)) (i32ToUsize sz) r1
          with ⟨r2, res⟩
        rw [hpl] at hok
        cases res with
        | error e => exact Except.noConfusion (applyAlign_ok hok)
        | ok ps =>
          simp only at hok
          have hres := applyAlign_ok hok
          injection hres with h1
          injection h1 with hv hi'
          exact ⟨m, sz, r1, ps, r2, rfl, rfl, hpl, hv.symm,
            pairsLoop_length m nodes (index + 4)
              (get_level_length nodes (index + 4) + (index + 4)) (i32ToUsize sz) r1 r2 ps hpl,
            hi'.symm⟩

/-- Node list of a record with an `Array` child of `int` elements. -/
def c6ArrNodes : List TypeTreeNode :=
  [⟨0, "vector", "arr", 0⟩, ⟨1, "Array", "Array", 0⟩, ⟨2, "int", "size", 0⟩,
   ⟨2, "int", "data", 0⟩]

/-- Node list of a `map` with `int` keys and `int` values. -/
def c6MapNodes : List TypeTreeNode :=
  [⟨0, "map", "m", 0⟩, ⟨1, "Array", "Array", 0⟩, ⟨2, "int", "size", 0⟩,
   ⟨2, "pair", "data", 0⟩, ⟨3, "int", "first", 0⟩, ⟨3, "int", "second", 0⟩]

/-- C6 witness: a 2-element int array and a 1-entry int map, decoded from
concrete little-endian bytes. -/
theorem c6_container_arity_witness :
    (∃ fuel0 sz r1 vs r2,
      (10 : Nat) = fuel0 + 1
      ∧ Reader.readInt ⟨[2, 0, 0, 0, 7, 0, 0, 0, 9, 0, 0, 0], 0, true⟩ 4 = .ok (sz, r1)
      ∧ elemsLoop fuel0 c6ArrNodes (0 + 3) (i32ToUsize sz) r1 = (r2, .ok vs)
      ∧ Value.vSeq [.vInt 7, .vInt 9] = .vSeq vs
      ∧ vs.length = i32ToUsize sz
      ∧ (3 : Nat) = 0 + get_level_length c6ArrNodes 0 - 1)
    ∧ (∃ fuel0 sz r1 ps r2,
      (10 : Nat) = fuel0 + 1
      ∧ Reader.readInt ⟨[1, 0, 0, 0, 7, 0, 0, 0, 9, 0, 0, 0], 0, true⟩ 4 = .ok (sz, r1)
      ∧ pairsLoop fuel0 c6MapNodes (0 + 4)
          (get_level_length c6MapNodes (0 + 4) + (0 + 4)) (i32ToUsize sz) r1
        = (r2, .ok ps)
      ∧ Value.vMap [(.vInt 7, .vInt 9)] = .vMap ps
      ∧ ps.length = i32ToUsize sz
      ∧ (5 : Nat) = 0 + get_level_length c6MapNodes 0 - 1) :=
  ⟨c6_container_arity.1 10 c6ArrNodes 0 ⟨[2, 0, 0, 0, 7, 0, 0, 0, 9, 0, 0, 0], 0, true⟩
      ⟨[2, 0, 0, 0, 7, 0, 0, 0, 9, 0, 0, 0], 12, true⟩
      (.vSeq [.vInt 7, .vInt 9]) 3 ⟨0, "vector", "arr", 0⟩ ⟨1, "Array", "Array", 0⟩
      rfl rfl (by decide) (by decide) (by decide) rfl rfl rfl,
   c6_container_arity.2 10 c6MapNodes 0 ⟨[1, 0, 0, 0, 7, 0, 0, 0, 9, 0, 0, 0], 0, true⟩
      ⟨[1, 0, 0, 0, 7, 0, 0, 0, 9, 0, 0, 0], 12, true⟩
      (.vMap [(.vInt 7, .vInt 9)]) 5 ⟨0, "map", "m", 0⟩
      rfl rfl rfl⟩

end UnityRs
